import Mathlib

/-!
# Arbores: the chain driver of `src/main.c`

A shallow embedding of `main` (src/main.c, lines 75-238) and a verification of
the statements of the specification about it.

`main` is pure orchestration: every kernel, oracle and file operation it calls
lives in another translation unit.  Those callees are the fields of
`Externals`; the types they exchange (`struct Smc`, `struct Data`,
`struct BridgePoints`, `double`, the state of the random source and of the
file system) are type parameters `P`, `D`, `B`, `F`, `W`.

* `long`/`int` values are `Int`.  `iter` only grows through `iter++` at a
  point where `iter < N` holds and through the value returned by `jittering`,
  so no wrap-around is modelled.
* `malloc(sizeof(struct MCMCSummary) * N)` is computed in `size_t` (64 bits),
  so the request wraps for a negative or a very large `N`; whether the
  allocator serves it is the callee `malloc`.  With the null pointer the write
  at line 152 faults.  A block that was returned is a total map
  `Int → MCMCSummary`; its initial (indeterminate) content is the argument
  `chain0`.  A write outside `0 .. N-1` of a block that was returned is
  undefined behaviour the embedding does not stop at: it is visible in the
  trace.
* The observable behaviour is a trace: the calls with side effects, and the
  values of the local variables `chain`, `iter`, `path`, `full_scan_count`
  at the program points of the driver.
* The `while (true)` loop is run with fuel; `none` means the fuel ran out.
* `parm.verb` is `0` for the whole run, so the `printf` progress output and
  `printData` are left out; `assert` is taken as enabled.
-/

namespace Arbores

/-- The `struct MCMCDiagnostics` of a chain entry: the nineteen fields `main`
assigns (lines 154-176).  The declaration is in `datastructures.h`; counters
and flags are integers, densities and ratios are `double` (`F`). -/
structure MCMCDiagnostics (F : Type) where
  accept_indicator : Int
  alpha : F
  cardinality_ratio : F
  current_free_time_density : F
  current_log_likelihood : F
  current_log_prior : F
  current_number_of_free_times : Int
  current_recombination_density : F
  irreducibility : Int
  jitter_step : Int
  log_likelihood : F
  log_prior : F
  log_posterior : F
  proposed_free_time_density : F
  proposed_log_likelihood : F
  proposed_log_prior : F
  proposed_number_of_free_times : Int
  proposed_number_of_recombinations : Int
  proposed_recombination_density : F

/-- The `struct MCMCSummary`: one chain entry. -/
structure MCMCSummary (P F : Type) where
  path : P
  data : MCMCDiagnostics F
  full_scan : Int

/-- The `struct Parameters`, the four fields `main` sets (lines 100-106). -/
structure Parameters (F : Type) where
  mu : F
  rho : F
  n_eff : Int
  verb : Int

/-- The memory block `chain` points to, indexed like the C array. -/
abbrev Chain (P F : Type) := Int → MCMCSummary P F

/-- The local variables of `main` the driver loop works on. -/
structure Vars (P F : Type) where
  chain : Chain P F
  iter : Int
  path : P
  full_scan_count : Int

/-- Program points of the driver (lines 147-234) at which the trace records
the variables.  A point named after a function is the call of that function,
taken just before the call. -/
inductive Point where
  | initialRecorded
  | writePathToChainFile
  | jitteringCall
  | jitteringReturned
  | segmentSamplerCall (i : Int)
  | segmentRecorded (i : Int)
  | timesToMRCA
  | writeMrcaToFile
  | mapCall
  | segmentFlagged (i : Int)
  | deallocateChain
  deriving DecidableEq

/-- Observable events of a run of `main`: the calls made before the driver
loop, and `reach pt v w`, program point `pt` reached with variables `v` and
random-source state `w`. -/
inductive Event (P F W : Type) where
  | usage
  | argRead (i : Nat)
  | init_genrand (seed : Int)
  | mkdir (dir : Option String)
  | createResultFullPahts (dir : Option String)
  | readData (filename : String)
  | getchar
  | createInitFilePath (file : String)
  | malloc (n : Int)
  | removeMRCAFile
  | removeChainFile
  | reach (pt : Point) (v : Vars P F) (w : W)

/-- How `main` ends: `return status`, `abort()` from a failed `assert`, or a
fault on the write through the null pointer when `malloc` has failed. -/
inductive Exit where
  | returned (status : Int)
  | aborted
  | faulted
  deriving DecidableEq

/-- The functions `main` calls that are defined in other translation units,
and the constant `BR_LEN`.  `likelihood` and `smcprior` stand for the one
field `main` reads from the structure they return (`log_likelihood`,
`density`); `n_sites` and `length` are the fields `data.n_sites` and
`bp.length`.  `initialisation`, `jittering` and `segmentSampler` draw from the
process-wide random source, so they take and return the state `W`;
`jittering` receives the pointer `chain` and may write through it, so it
returns the new content of the block next to the new `iter`.
`sizeof_MCMCSummary` is `sizeof(struct MCMCSummary)` (the structure is declared
in `datastructures.h`); `malloc n` tells whether the allocator returns a block
(`true`) or the null pointer (`false`) for a request of `n` bytes.  `atol`
returns a `long`. -/
structure Externals (P D B W F : Type) where
  sizeof_MCMCSummary : Nat
  malloc : Nat → Bool
  atol : String → Int
  atof : String → F
  atoi : String → Int
  BR_LEN : Int
  init_genrand : W → Int → W
  readData : String → D
  n_sites : D → Int
  initialisation : W → D → Parameters F → W × P
  augmentWithNonSegregatingSites : D → P → D
  createBridgePoints : D → Int → B
  length : B → Int
  readInitialisationFileRowFormat : D → P
  checkTreePathCompletely : P → Int
  checkCompatibility : P → D → Int
  likelihood : P → D → Parameters F → F
  smcprior : P → Parameters F → D → F
  countRecombinations : P → Int
  jittering : W → Chain P F → Int → Int → Parameters F → D → W × Chain P F × Int
  segmentSampler : W → P → Int → B → D → Parameters F → W × MCMCSummary P F

/-- The running driver: variables, random source, trace so far. -/
structure Machine (P F W : Type) where
  vars : Vars P F
  world : W
  trace : List (Event P F W)

/-- What a run of `main` leaves behind. -/
structure Result (P F W : Type) where
  exit : Exit
  trace : List (Event P F W)
  final : Option (Vars P F)

section Driver

variable {P D B W F : Type}

/-- Record the current variables at a program point. -/
def Machine.emit (m : Machine P F W) (pt : Point) : Machine P F W :=
  { m with trace := m.trace ++ [Event.reach pt m.vars m.world] }

/-- The assignment `chain[k].full_scan = v`. -/
def setFullScan (c : Chain P F) (k : Int) (v : Int) : Chain P F :=
  Function.update c k { c k with full_scan := v }

/-- Lines 152-176: the entry `main` stores in `chain[0]`. -/
def initialEntry [IntCast F] [Add F] (x : Externals P D B W F)
    (path : P) (data : D) (parm : Parameters F) : MCMCSummary P F :=
  { path := path
    full_scan := 0
    data :=
      { accept_indicator := 1
        alpha := ((1 : Int) : F)
        cardinality_ratio := ((1 : Int) : F)
        current_free_time_density := ((-1 : Int) : F)
        current_log_likelihood := ((-1 : Int) : F)
        current_log_prior := ((-1 : Int) : F)
        current_number_of_free_times := -1
        current_recombination_density := ((-1 : Int) : F)
        irreducibility := 0
        jitter_step := 0
        log_likelihood := x.likelihood path data parm
        log_prior := x.smcprior path parm data
        log_posterior := x.likelihood path data parm + x.smcprior path parm data
        proposed_free_time_density := ((-1 : Int) : F)
        proposed_log_likelihood := ((-1 : Int) : F)
        proposed_log_prior := ((-1 : Int) : F)
        proposed_number_of_free_times := -1
        proposed_number_of_recombinations := x.countRecombinations path
        proposed_recombination_density := ((-1 : Int) : F) } }

/-- Lines 198-199: `chain[iter++] = segmentSampler(path, i, bp, data, parm);`
and `path = chain[iter - 1].path;`. -/
def segmentRecord (x : Externals P D B W F) (bp : B) (data : D)
    (parm : Parameters F) (i : Int) (m : Machine P F W) : Machine P F W :=
  let m0 := m.emit (Point.segmentSamplerCall i)
  let r := x.segmentSampler m0.world m0.vars.path i bp data parm
  let chain1 := Function.update m0.vars.chain m0.vars.iter r.2
  let iter1 := m0.vars.iter + 1
  let m1 : Machine P F W :=
    { vars := { chain := chain1, iter := iter1, path := (chain1 (iter1 - 1)).path,
                full_scan_count := m0.vars.full_scan_count }
      world := r.1
      trace := m0.trace }
  m1.emit (Point.segmentRecorded i)

/-- Lines 211-217, the branch `i == bp.length - 1`: the entry is flagged, the
MRCA times and the path are written out, `full_scan_count++`, and `map` is
called.  `timesToMRCA`, `writeMrcaToFile`, `writePathToChainFile` and `map` are
output only; they leave the variables as they are. -/
def sweepCompleted (m : Machine P F W) : Machine P F W :=
  let a : Machine P F W :=
    { m with vars := { m.vars with chain := setFullScan m.vars.chain (m.vars.iter - 1) 1 } }
  let b := ((a.emit Point.timesToMRCA).emit Point.writeMrcaToFile).emit
    Point.writePathToChainFile
  let c : Machine P F W :=
    { b with vars := { b.vars with full_scan_count := b.vars.full_scan_count + 1 } }
  c.emit Point.mapCall

/-- Line 219, the `else` branch: `chain[iter - 1].full_scan = 0;`. -/
def sweepOpen (m : Machine P F W) : Machine P F W :=
  { m with vars := { m.vars with chain := setFullScan m.vars.chain (m.vars.iter - 1) 0 } }

/-- Lines 198-220: the body of the `for` loop for segment index `i`, up to
(not including) the test `if (iter >= N) break;`. -/
def segmentStep (x : Externals P D B W F) (bp : B) (data : D)
    (parm : Parameters F) (i : Int) (m : Machine P F W) : Machine P F W :=
  let m1 := segmentRecord x bp data parm i m
  let m2 := if i = x.length bp - 1 then sweepCompleted m1 else sweepOpen m1
  m2.emit (Point.segmentFlagged i)

/-- Lines 197-225: `for (int i = 0; i < bp.length; i++) { ...; if (iter >= N) break; }`.
`n` is the number of indices still to visit, `bp.length - i`; the loop is
entered as `segmentLoop ... (bp.length).toNat 0`. -/
def segmentLoop (x : Externals P D B W F) (N : Int) (bp : B) (data : D)
    (parm : Parameters F) : Nat → Int → Machine P F W → Machine P F W
  | 0, _, m => m
  | n + 1, i, m =>
    let m1 := segmentStep x bp data parm i m
    if m1.vars.iter ≥ N then m1 else segmentLoop x N bp data parm n (i + 1) m1

/-- Lines 187-190: the call of `jittering` and the reload of `path`. -/
def jitterStep (x : Externals P D B W F) (N : Int) (data : D)
    (parm : Parameters F) (m : Machine P F W) : Machine P F W :=
  let m0 := m.emit Point.jitteringCall
  -- iter = jittering(chain, iter, N, parm, data);
  let r := x.jittering m0.world m0.vars.chain m0.vars.iter N parm data
  -- path = chain[iter - 1].path;
  let m1 : Machine P F W :=
    { vars := { chain := r.2.1, iter := r.2.2, path := (r.2.1 (r.2.2 - 1)).path,
                full_scan_count := m0.vars.full_scan_count }
      world := r.1
      trace := m0.trace }
  m1.emit Point.jitteringReturned

/-- Lines 185-230: the `while (true)` loop (`segment_sampler_on` is `1`
throughout).  `none`: the fuel ran out before a `break`. -/
def mainLoop (x : Externals P D B W F) (N : Int) (bp : B) (data : D)
    (parm : Parameters F) : Nat → Machine P F W → Option (Machine P F W)
  | 0, _ => none
  | fuel + 1, m =>
    let m1 := jitterStep x N data parm m
    if m1.vars.iter ≥ N then some m1
    else
      let m2 := segmentLoop x N bp data parm (x.length bp).toNat 0 m1
      if m2.vars.iter ≥ N then some m2 else mainLoop x N bp data parm fuel m2

/-- The number of bytes asked of `malloc` at line 148: `N` converted to
`size_t` and multiplied by `sizeof(struct MCMCSummary)`, modulo `2^64`. -/
def allocSize (x : Externals P D B W F) (N : Int) : Nat :=
  (x.sizeof_MCMCSummary * (N % 2 ^ 64).toNat) % 2 ^ 64

/-- Lines 147-180 when `malloc` has returned a block: removal of the old logs,
the initial entry at `chain[iter]` with `iter = 0`, `iter++`, and the first
record of the chain file.  `pre` is the trace of what came before. -/
def driverInit [IntCast F] [Add F] (x : Externals P D B W F) (N : Int) (data : D)
    (parm : Parameters F) (path : P) (w : W) (chain0 : Chain P F)
    (pre : List (Event P F W)) : Machine P F W :=
  let m : Machine P F W :=
    { vars := { chain := Function.update chain0 0 (initialEntry x path data parm)
                iter := 0 + 1
                path := path
                full_scan_count := 0 }
      world := w
      trace := pre ++ [Event.malloc N, Event.removeMRCAFile, Event.removeChainFile] }
  (m.emit Point.initialRecorded).emit Point.writePathToChainFile

/-- Lines 152-237 when `malloc` has returned a block: the initial entry, the
loop, `deallocateChain` and `return 0`. -/
def driverRun [IntCast F] [Add F] (x : Externals P D B W F) (N : Int) (bp : B) (data : D)
    (parm : Parameters F) (path : P) (w : W) (chain0 : Chain P F)
    (pre : List (Event P F W)) (fuel : Nat) : Option (Result P F W) :=
  (mainLoop x N bp data parm fuel (driverInit x N data parm path w chain0 pre)).map
    fun m =>
      let m1 := m.emit Point.deallocateChain
      { exit := Exit.returned 0, trace := m1.trace, final := some m1.vars }

/-- Lines 147-237: the driver, from `malloc` to `return 0`.  The result of
`malloc` is not tested: with the null pointer the two logs are still removed
(lines 149-150) and the first write, `chain[iter].path = path` at line 152,
faults. -/
def driver [IntCast F] [Add F] (x : Externals P D B W F) (N : Int) (bp : B) (data : D)
    (parm : Parameters F) (path : P) (w : W) (chain0 : Chain P F)
    (pre : List (Event P F W)) (fuel : Nat) : Option (Result P F W) :=
  if x.malloc (allocSize x N) = true then
    driverRun x N bp data parm path w chain0 pre fuel
  else
    some { exit := Exit.faulted
           trace := pre ++ [Event.malloc N, Event.removeMRCAFile, Event.removeChainFile]
           final := none }

/-- Lines 98-106: the parameters read from the command line. -/
def readParameters (x : Externals P D B W F) (argv : List String) : Parameters F :=
  { mu := x.atof (argv.getD 3 "")
    rho := x.atof (argv.getD 4 "")
    n_eff := 1
    verb := 0 }

/-- Line 99: `N = atol(argv[2])`. -/
def mainN (x : Externals P D B W F) (argv : List String) : Int :=
  x.atol (argv.getD 2 "")

/-- Lines 103-122: the random source is seeded, the data file is read and
`initialisation(data, parm)` is run; the result is the new state of the random
source and the initial path. -/
def mainInitialisation (x : Externals P D B W F) (w : W) (argv : List String) : W × P :=
  x.initialisation (x.init_genrand w (x.atoi (argv.getD 5 ""))) (x.readData (argv.getD 1 ""))
    (readParameters x argv)

/-- Line 127: `data = augmentWithNonSegregatingSites(data, path)`. -/
def mainData (x : Externals P D B W F) (w : W) (argv : List String) : D :=
  x.augmentWithNonSegregatingSites (x.readData (argv.getD 1 "")) (mainInitialisation x w argv).2

/-- Line 131: `bp = createBridgePoints(data, BR_LEN)`. -/
def mainBp (x : Externals P D B W F) (w : W) (argv : List String) : B :=
  x.createBridgePoints (mainData x w argv) x.BR_LEN

/-- Lines 122-142: the initial path, read from a file when `argc >= 8`. -/
def mainPath (x : Externals P D B W F) (w : W) (argv : List String) : P :=
  if argv.length ≥ 8 then x.readInitialisationFileRowFormat (mainData x w argv)
  else (mainInitialisation x w argv).2

/-- Lines 98-142 as a trace: the arguments read, the random seed, the output
directory, the data file, the confirmation prompt, the initial-path file. -/
def setupTrace (x : Externals P D B W F) (argv : List String) : List (Event P F W) :=
  [Event.argRead 1, Event.argRead 2, Event.argRead 3, Event.argRead 4, Event.argRead 5,
   Event.init_genrand (x.atoi (argv.getD 5 "")), Event.argRead 6,
   Event.mkdir (argv.get? 6), Event.createResultFullPahts (argv.get? 6),
   Event.readData (argv.getD 1 "")]
  ++ (if x.n_sites (x.readData (argv.getD 1 "")) ≥ 30 then [Event.getchar] else [])
  ++ (if argv.length ≥ 8 then [Event.argRead 7, Event.createInitFilePath (argv.getD 7 "")]
      else [])

/-- The function `main` (lines 75-238).  `argv` is the argument vector, program
name first, so `argc = argv.length`; `argv[argc]` is the null pointer (`none`).
A failed `assert` (lines 144-145) aborts the run. -/
def main [IntCast F] [Add F] (x : Externals P D B W F) (w : W) (chain0 : Chain P F)
    (argv : List String) (fuel : Nat) : Option (Result P F W) :=
  if argv.length < 6 then
    some { exit := Exit.returned 0, trace := [Event.usage], final := none }
  else if x.checkTreePathCompletely (mainPath x w argv) = 1
      ∧ x.checkCompatibility (mainPath x w argv) (mainData x w argv) = 1 then
    driver x (mainN x argv) (mainBp x w argv) (mainData x w argv) (readParameters x argv)
      (mainPath x w argv) (mainInitialisation x w argv).1 chain0 (setupTrace x argv) fuel
  else
    some { exit := Exit.aborted, trace := setupTrace x argv, final := none }

end Driver

/-! ## Reading a trace -/

section Reading

variable {P F W : Type}

/-- The program point of an event, if it is one. -/
def Event.point? : Event P F W → Option Point
  | Event.reach pt _ _ => some pt
  | _ => none

/-- The variables recorded by an event. -/
def Event.vars? : Event P F W → Option (Vars P F)
  | Event.reach _ v _ => some v
  | _ => none

/-- The program points of a trace, in order. -/
def points (t : List (Event P F W)) : List Point :=
  t.filterMap Event.point?

/-- How often a program point occurs in a trace. -/
def countPoint (pt : Point) (t : List (Event P F W)) : Nat :=
  (points t).count pt

/-- The point is a call of one of the two kernels. -/
def Point.isKernelCall : Point → Bool
  | Point.jitteringCall => true
  | Point.segmentSamplerCall _ => true
  | _ => false

/-- The point is the return of a kernel call (its result is in place). -/
def Point.isKernelReturn : Point → Bool
  | Point.jitteringReturned => true
  | Point.segmentRecorded _ => true
  | _ => false

/-- The kernel calls of a trace, in order. -/
def kernelCalls (t : List (Event P F W)) : List Point :=
  (points t).filter Point.isKernelCall

/-- The variables with which a given program point was reached, in order. -/
def varsAt (pt : Point) (t : List (Event P F W)) : List (Vars P F) :=
  t.filterMap fun e =>
    match e with
    | Event.reach q v _ => if q = pt then some v else none
    | _ => none

/-- The values of `iter` along a trace, in order. -/
def iters (t : List (Event P F W)) : List Int :=
  t.filterMap fun e => e.vars?.map fun v => v.iter

/-- The variables after `chain[iter - 1].full_scan = 1;` (line 211). -/
def Vars.flagged (v : Vars P F) : Vars P F :=
  { v with chain := setFullScan v.chain (v.iter - 1) 1 }

/-- The variables after `full_scan_count++;` (line 216). -/
def Vars.counted (v : Vars P F) : Vars P F :=
  { v with full_scan_count := v.full_scan_count + 1 }

/-- One sweep of the schedule: `jittering`, then `segmentSampler` for the
indices `0 .. len - 1`. -/
def sweepCalls (len : Int) : List Point :=
  Point.jitteringCall ::
    (List.range len.toNat).map fun j : Nat => Point.segmentSamplerCall (j : Int)

/-- The repeating pattern of kernel calls, `k` sweeps long. -/
def schedule (len : Int) (k : Nat) : List Point :=
  (List.replicate k (sweepCalls len)).flatten

/-- What stands right after a kernel call in the trace: the return of that
very call.  After `segmentSampler` called with index `i`, variables `v` and
random source `w`, it is the point `segmentRecorded i` with the returned entry
stored at `chain[iter]`, `iter` one higher and `path` the returned path; after
`jittering` it is `jitteringReturned` with the chain and `iter` the kernel
returned and `path = chain[iter - 1].path`.  Any other event may be followed by
anything. -/
def Returns {D B : Type} (x : Externals P D B W F) (N : Int) (bp : B) (data : D)
    (parm : Parameters F) : Event P F W → Event P F W → Prop
  | Event.reach (Point.segmentSamplerCall i) v w, e =>
    e = Event.reach (Point.segmentRecorded i)
      { chain := Function.update v.chain v.iter (x.segmentSampler w v.path i bp data parm).2
        iter := v.iter + 1
        path := (x.segmentSampler w v.path i bp data parm).2.path
        full_scan_count := v.full_scan_count }
      (x.segmentSampler w v.path i bp data parm).1
  | Event.reach Point.jitteringCall v w, e =>
    e = Event.reach Point.jitteringReturned
      { chain := (x.jittering w v.chain v.iter N parm data).2.1
        iter := (x.jittering w v.chain v.iter N parm data).2.2
        path := ((x.jittering w v.chain v.iter N parm data).2.1
          ((x.jittering w v.chain v.iter N parm data).2.2 - 1)).path
        full_scan_count := v.full_scan_count }
      (x.jittering w v.chain v.iter N parm data).1
  | _, _ => True

/-- The relation between an earlier and a later event of a run: when the
earlier one is a kernel return and the later one a kernel call, the return left
`iter < N`. -/
def StopsAt (N : Int) : Event P F W → Event P F W → Prop
  | Event.reach p v _, Event.reach q _ _ =>
    p.isKernelReturn = true → q.isKernelCall = true → v.iter < N
  | _, _ => True

end Reading

/-! ## A concrete instance

Paths are numbers, a `double` is an integer, the random source is a counter.
`jittering` records nothing and returns `iter`; `segmentSampler` draws the next
number as the new path and returns an entry with an arbitrary `full_scan`. -/

/-- A diagnostics record with every field `0`. -/
def zeroDiagnostics : MCMCDiagnostics Int :=
  { accept_indicator := 0, alpha := 0, cardinality_ratio := 0,
    current_free_time_density := 0, current_log_likelihood := 0, current_log_prior := 0,
    current_number_of_free_times := 0, current_recombination_density := 0,
    irreducibility := 0, jitter_step := 0, log_likelihood := 0, log_prior := 0,
    log_posterior := 0, proposed_free_time_density := 0, proposed_log_likelihood := 0,
    proposed_log_prior := 0, proposed_number_of_free_times := 0,
    proposed_number_of_recombinations := 0, proposed_recombination_density := 0 }

/-- The uninitialised block of the concrete runs. -/
def junk : Chain Nat Int := fun _ => { path := 0, data := zeroDiagnostics, full_scan := 7 }

/-- The digits at the head of a string, read as a decimal number. -/
def readDigits : List Char → Int → Int
  | [], acc => acc
  | c :: cs, acc =>
    if 48 ≤ c.toNat ∧ c.toNat ≤ 57 then readDigits cs (10 * acc + (c.toNat - 48)) else acc

/-- A decimal reader for `atol` and `atoi`: an optional minus sign, then
digits; anything else ends the number. -/
def readDecimal (s : String) : Int :=
  match s.toList with
  | '-' :: cs => - readDigits cs 0
  | cs => readDigits cs 0

/-- Concrete callees: `len` segments, a path `p` passes both checks unless it
is `bad`; the seed is the first state of the random source; the allocator
serves requests below `2^40` bytes (a request of zero bytes included). -/
def demo (len : Int) (bad : Nat) : Externals Nat Unit Int Nat Int :=
  { sizeof_MCMCSummary := 176
    malloc := fun n => decide (n < 2 ^ 40)
    atol := readDecimal
    atof := fun _ => 0
    atoi := readDecimal
    BR_LEN := 1
    init_genrand := fun _ seed => seed.toNat
    readData := fun _ => ()
    n_sites := fun _ => 3
    initialisation := fun w _ _ => (w, 1)
    augmentWithNonSegregatingSites := fun d _ => d
    createBridgePoints := fun _ _ => len
    length := fun b => b
    readInitialisationFileRowFormat := fun _ => 2
    checkTreePathCompletely := fun p => if p = bad then 0 else 1
    checkCompatibility := fun _ _ => 1
    likelihood := fun _ _ _ => 5
    smcprior := fun _ _ _ => 3
    countRecombinations := fun p => (p : Int)
    jittering := fun w c it _ _ _ => (w, c, it)
    segmentSampler := fun w _ _ _ _ _ =>
      (w + 1, { path := w + 10, data := zeroDiagnostics, full_scan := 7 }) }

/-- A command line with the six positional arguments, `N = 10`. -/
def argv7 : List String := ["arbores", "data.txt", "10", "1e-6", "3e-7", "42", "out"]

/-- The same command line with `N = 5`. -/
def argvFive : List String := ["arbores", "data.txt", "5", "1e-6", "3e-7", "42", "out"]

/-- The same command line with `N = 3`. -/
def argvThree : List String := ["arbores", "data.txt", "3", "1e-6", "3e-7", "42", "out"]

/-- A command line that asks for a chain of length zero. -/
def argvZero : List String := ["arbores", "data.txt", "0", "1e-6", "3e-7", "42", "out"]

/-- A command line with five positional arguments: no output directory. -/
def argv6 : List String := ["arbores", "data.txt", "10", "1e-6", "3e-7", "42"]

end Arbores

namespace Arbores

/-! ## The steps of the driver -/

section Steps

variable {P D B W F : Type} (x : Externals P D B W F) (N : Int) (bp : B) (data : D)
  (parm : Parameters F)

@[simp] theorem emit_vars (m : Machine P F W) (pt : Point) : (m.emit pt).vars = m.vars := rfl

@[simp] theorem emit_world (m : Machine P F W) (pt : Point) : (m.emit pt).world = m.world := rfl

@[simp] theorem emit_trace (m : Machine P F W) (pt : Point) :
    (m.emit pt).trace = m.trace ++ [Event.reach pt m.vars m.world] := rfl

theorem setFullScan_path (c : Chain P F) (k j v : Int) :
    (setFullScan c k v j).path = (c j).path := by
  unfold setFullScan
  by_cases h : j = k
  · subst h; simp
  · simp [Function.update_noteq h]

theorem setFullScan_same (c : Chain P F) (k v : Int) :
    (setFullScan c k v k).full_scan = v := by
  simp [setFullScan]

/-- The entry returned by the `segmentSampler` call of a segment step. -/
theorem segmentRecord_vars (i : Int) (m : Machine P F W) :
    (segmentRecord x bp data parm i m).vars =
      { chain := Function.update m.vars.chain m.vars.iter
          (x.segmentSampler m.world m.vars.path i bp data parm).2
        iter := m.vars.iter + 1
        path := (x.segmentSampler m.world m.vars.path i bp data parm).2.path
        full_scan_count := m.vars.full_scan_count } := by
  have h : m.vars.iter + 1 - 1 = m.vars.iter := by omega
  simp only [segmentRecord, emit_vars, emit_world]
  rw [h, Function.update_same]

theorem segmentRecord_world (i : Int) (m : Machine P F W) :
    (segmentRecord x bp data parm i m).world =
      (x.segmentSampler m.world m.vars.path i bp data parm).1 := rfl

theorem segmentRecord_trace (i : Int) (m : Machine P F W) :
    (segmentRecord x bp data parm i m).trace =
      m.trace ++ [Event.reach (Point.segmentSamplerCall i) m.vars m.world,
        Event.reach (Point.segmentRecorded i) (segmentRecord x bp data parm i m).vars
          (segmentRecord x bp data parm i m).world] := by
  simp [segmentRecord]

theorem sweepCompleted_vars (m : Machine P F W) :
    (sweepCompleted m).vars =
      { chain := setFullScan m.vars.chain (m.vars.iter - 1) 1
        iter := m.vars.iter
        path := m.vars.path
        full_scan_count := m.vars.full_scan_count + 1 } := rfl

theorem sweepCompleted_trace (m : Machine P F W) :
    (sweepCompleted m).trace =
      m.trace ++
        [Event.reach Point.timesToMRCA
          { m.vars with chain := setFullScan m.vars.chain (m.vars.iter - 1) 1 } m.world,
         Event.reach Point.writeMrcaToFile
          { m.vars with chain := setFullScan m.vars.chain (m.vars.iter - 1) 1 } m.world,
         Event.reach Point.writePathToChainFile
          { m.vars with chain := setFullScan m.vars.chain (m.vars.iter - 1) 1 } m.world,
         Event.reach Point.mapCall (sweepCompleted m).vars m.world] := by
  simp [sweepCompleted]

theorem sweepOpen_vars (m : Machine P F W) :
    (sweepOpen m).vars = { m.vars with chain := setFullScan m.vars.chain (m.vars.iter - 1) 0 } :=
  rfl

theorem segmentStep_iter (i : Int) (m : Machine P F W) :
    (segmentStep x bp data parm i m).vars.iter = m.vars.iter + 1 := by
  unfold segmentStep
  by_cases h : i = x.length bp - 1 <;>
    simp [h, sweepCompleted_vars, sweepOpen_vars, segmentRecord_vars]

theorem segmentStep_full_scan_count (i : Int) (m : Machine P F W) :
    (segmentStep x bp data parm i m).vars.full_scan_count =
      if i = x.length bp - 1 then m.vars.full_scan_count + 1 else m.vars.full_scan_count := by
  unfold segmentStep
  by_cases h : i = x.length bp - 1 <;>
    simp [h, sweepCompleted_vars, sweepOpen_vars, segmentRecord_vars]

theorem jitterStep_trace (m : Machine P F W) :
    (jitterStep x N data parm m).trace =
      m.trace ++ [Event.reach Point.jitteringCall m.vars m.world,
        Event.reach Point.jitteringReturned (jitterStep x N data parm m).vars
          (jitterStep x N data parm m).world] := by
  simp [jitterStep]

theorem jitterStep_iter (m : Machine P F W) :
    (jitterStep x N data parm m).vars.iter =
      (x.jittering m.world m.vars.chain m.vars.iter N parm data).2.2 := rfl

theorem jitterStep_chain (m : Machine P F W) :
    (jitterStep x N data parm m).vars.chain =
      (x.jittering m.world m.vars.chain m.vars.iter N parm data).2.1 := rfl

theorem jitterStep_path (m : Machine P F W) :
    (jitterStep x N data parm m).vars.path =
      ((jitterStep x N data parm m).vars.chain ((jitterStep x N data parm m).vars.iter - 1)).path :=
  rfl

theorem jitterStep_full_scan_count (m : Machine P F W) :
    (jitterStep x N data parm m).vars.full_scan_count = m.vars.full_scan_count := rfl

/-! ## Loop invariants -/

/-- A property that holds before the `for` loop and is kept by every segment
step taken with `iter < N` holds after the loop. -/
theorem segmentLoop_invariant (Inv : Machine P F W → Prop)
    (hs : ∀ i m, Inv m → m.vars.iter < N → Inv (segmentStep x bp data parm i m)) :
    ∀ (n : Nat) (i : Int) (m : Machine P F W), Inv m → m.vars.iter < N →
      Inv (segmentLoop x N bp data parm n i m) := by
  intro n
  induction n with
  | zero => intro i m h _; exact h
  | succ n ih =>
    intro i m h hlt
    have h1 := hs i m h hlt
    unfold segmentLoop
    by_cases hge : (segmentStep x bp data parm i m).vars.iter ≥ N
    · simp only [hge, if_true]; exact h1
    · simp only [hge, if_false]; exact ih (i + 1) _ h1 (lt_of_not_ge hge)

/-- A property `Pre` that holds before `while (true)`, is turned into `Inv` by
the jitter step, is kept by every segment step taken with `iter < N`, and gives
`Pre` back when the loop goes round, yields `Inv` and `iter >= N` at the
`break`. -/
theorem mainLoop_invariant (Pre Inv : Machine P F W → Prop)
    (hj : ∀ m, Pre m → Inv (jitterStep x N data parm m))
    (hs : ∀ i m, Inv m → m.vars.iter < N → Inv (segmentStep x bp data parm i m))
    (hback : ∀ m, Inv m → m.vars.iter < N → Pre m) :
    ∀ (fuel : Nat) (m m' : Machine P F W), Pre m →
      mainLoop x N bp data parm fuel m = some m' → Inv m' ∧ N ≤ m'.vars.iter := by
  intro fuel
  induction fuel with
  | zero => intro m m' _ h; simp [mainLoop] at h
  | succ fuel ih =>
    intro m m' hpre h
    have h1 := hj m hpre
    unfold mainLoop at h
    by_cases hge : (jitterStep x N data parm m).vars.iter ≥ N
    · simp only [hge, if_true, Option.some.injEq] at h
      subst h; exact ⟨h1, hge⟩
    · simp only [hge, if_false] at h
      have h2 := segmentLoop_invariant x N bp data parm Inv hs (x.length bp).toNat 0 _ h1
        (lt_of_not_ge hge)
      by_cases hge2 : (segmentLoop x N bp data parm (x.length bp).toNat 0
          (jitterStep x N data parm m)).vars.iter ≥ N
      · simp only [hge2, if_true, Option.some.injEq] at h
        subst h; exact ⟨h2, hge2⟩
      · simp only [hge2, if_false] at h
        exact ih _ m' (hback _ h2 (lt_of_not_ge hge2)) h

end Steps

end Arbores

namespace Arbores

section Termination

variable {P D B W F : Type} (x : Externals P D B W F) (N : Int) (bp : B) (data : D)
  (parm : Parameters F)

theorem driverInit_iter [IntCast F] [Add F] (path : P) (w : W) (chain0 : Chain P F)
    (pre : List (Event P F W)) :
    (driverInit x N data parm path w chain0 pre).vars.iter = 1 := rfl

/-- When at least six words are on the command line, both assertions hold and
`malloc` returns a block, `main` is the driver run on the values set up in
lines 98-142. -/
theorem main_eq_driver [IntCast F] [Add F] (w : W) (chain0 : Chain P F) (argv : List String)
    (fuel : Nat) (hargc : 6 ≤ argv.length)
    (h1 : x.checkTreePathCompletely (mainPath x w argv) = 1)
    (h2 : x.checkCompatibility (mainPath x w argv) (mainData x w argv) = 1)
    (hm : x.malloc (allocSize x (mainN x argv)) = true) :
    main x w chain0 argv fuel =
      driverRun x (mainN x argv) (mainBp x w argv) (mainData x w argv) (readParameters x argv)
        (mainPath x w argv) (mainInitialisation x w argv).1 chain0 (setupTrace x argv) fuel := by
  unfold main driver
  rw [if_neg (by omega), if_pos ⟨h1, h2⟩, if_pos hm]

end Termination

end Arbores

namespace Arbores

section Traces

variable {P D B W F : Type} (x : Externals P D B W F) (N : Int) (bp : B) (data : D)
  (parm : Parameters F)

/-- The events of a segment step that closes a sweep. -/
theorem segmentStep_trace_last (i : Int) (m : Machine P F W) (h : i = x.length bp - 1) :
    (segmentStep x bp data parm i m).trace =
      m.trace ++
        [Event.reach (Point.segmentSamplerCall i) m.vars m.world,
         Event.reach (Point.segmentRecorded i) (segmentRecord x bp data parm i m).vars
          (segmentRecord x bp data parm i m).world,
         Event.reach Point.timesToMRCA
          { (segmentRecord x bp data parm i m).vars with
            chain := setFullScan (segmentRecord x bp data parm i m).vars.chain
              ((segmentRecord x bp data parm i m).vars.iter - 1) 1 }
          (segmentRecord x bp data parm i m).world,
         Event.reach Point.writeMrcaToFile
          { (segmentRecord x bp data parm i m).vars with
            chain := setFullScan (segmentRecord x bp data parm i m).vars.chain
              ((segmentRecord x bp data parm i m).vars.iter - 1) 1 }
          (segmentRecord x bp data parm i m).world,
         Event.reach Point.writePathToChainFile
          { (segmentRecord x bp data parm i m).vars with
            chain := setFullScan (segmentRecord x bp data parm i m).vars.chain
              ((segmentRecord x bp data parm i m).vars.iter - 1) 1 }
          (segmentRecord x bp data parm i m).world,
         Event.reach Point.mapCall (segmentStep x bp data parm i m).vars
          (segmentStep x bp data parm i m).world,
         Event.reach (Point.segmentFlagged i) (segmentStep x bp data parm i m).vars
          (segmentStep x bp data parm i m).world] := by
  unfold segmentStep
  simp only [h, if_true, emit_trace, emit_vars, emit_world, sweepCompleted_trace,
    segmentRecord_trace, List.append_assoc, List.cons_append, List.nil_append]
  rfl

/-- The events of a segment step inside a sweep. -/
theorem segmentStep_trace_inner (i : Int) (m : Machine P F W) (h : i ≠ x.length bp - 1) :
    (segmentStep x bp data parm i m).trace =
      m.trace ++
        [Event.reach (Point.segmentSamplerCall i) m.vars m.world,
         Event.reach (Point.segmentRecorded i) (segmentRecord x bp data parm i m).vars
          (segmentRecord x bp data parm i m).world,
         Event.reach (Point.segmentFlagged i) (segmentStep x bp data parm i m).vars
          (segmentStep x bp data parm i m).world] := by
  unfold segmentStep
  simp only [h, if_false, emit_trace, emit_vars, emit_world]
  have hs : (sweepOpen (segmentRecord x bp data parm i m)).trace
      = (segmentRecord x bp data parm i m).trace := rfl
  rw [hs, segmentRecord_trace]
  simp only [List.append_assoc, List.cons_append, List.nil_append]

theorem points_append (a b : List (Event P F W)) : points (a ++ b) = points a ++ points b := by
  simp [points]

@[simp] theorem points_nil : points ([] : List (Event P F W)) = [] := rfl

@[simp] theorem points_reach (pt : Point) (v : Vars P F) (w : W) (t : List (Event P F W)) :
    points (Event.reach pt v w :: t) = pt :: points t := by
  simp [points, Event.point?]

theorem countPoint_append (pt : Point) (a b : List (Event P F W)) :
    countPoint pt (a ++ b) = countPoint pt a + countPoint pt b := by
  simp [countPoint, points_append]

@[simp] theorem countPoint_nil (pt : Point) : countPoint pt ([] : List (Event P F W)) = 0 := rfl

@[simp] theorem countPoint_reach (pt q : Point) (v : Vars P F) (w : W)
    (t : List (Event P F W)) :
    countPoint pt (Event.reach q v w :: t) = countPoint pt t + (if q = pt then 1 else 0) := by
  simp [countPoint, List.count_cons]

/-- Nothing before the driver is a program point of the driver. -/
theorem points_setupTrace (argv : List String) :
    points (setupTrace x argv : List (Event P F W)) = [] := by
  unfold setupTrace
  split_ifs <;> simp [points, Event.point?]

theorem driverInit_trace [IntCast F] [Add F] (path : P) (w : W) (chain0 : Chain P F)
    (pre : List (Event P F W)) :
    (driverInit x N data parm path w chain0 pre).trace =
      pre ++ [Event.malloc N, Event.removeMRCAFile, Event.removeChainFile,
        Event.reach Point.initialRecorded (driverInit x N data parm path w chain0 pre).vars w,
        Event.reach Point.writePathToChainFile (driverInit x N data parm path w chain0 pre).vars
          w] := by
  simp [driverInit]

theorem points_driverInit [IntCast F] [Add F] (path : P) (w : W) (chain0 : Chain P F)
    (pre : List (Event P F W)) (hpre : points pre = []) :
    points (driverInit x N data parm path w chain0 pre).trace =
      [Point.initialRecorded, Point.writePathToChainFile] := by
  rw [driverInit_trace, points_append, hpre]
  simp [points, Event.point?]

/-- A run of the driver, read off the loop: the result is the state at the
`break` plus the `deallocateChain` event, and an invariant of the loop holds for
that state. -/
theorem driver_invariant [IntCast F] [Add F] (Pre Inv : Machine P F W → Prop)
    (hj : ∀ m, Pre m → Inv (jitterStep x N data parm m))
    (hs : ∀ i m, Inv m → m.vars.iter < N → Inv (segmentStep x bp data parm i m))
    (hback : ∀ m, Inv m → m.vars.iter < N → Pre m)
    (path : P) (w : W) (chain0 : Chain P F) (pre : List (Event P F W)) (fuel : Nat)
    (r : Result P F W)
    (h0 : Pre (driverInit x N data parm path w chain0 pre))
    (h : driverRun x N bp data parm path w chain0 pre fuel = some r) :
    ∃ m' : Machine P F W, Inv m' ∧ N ≤ m'.vars.iter
      ∧ r.trace = m'.trace ++ [Event.reach Point.deallocateChain m'.vars m'.world]
      ∧ r.final = some m'.vars ∧ r.exit = Exit.returned 0 := by
  unfold driverRun at h
  cases hm : mainLoop x N bp data parm fuel (driverInit x N data parm path w chain0 pre) with
  | none => rw [hm] at h; simp at h
  | some m' =>
    rw [hm] at h
    simp only [Option.map_some', Option.some.injEq] at h
    obtain ⟨hi, hge⟩ := mainLoop_invariant x N bp data parm Pre Inv hj hs hback fuel _ m' h0 hm
    refine ⟨m', hi, hge, ?_, ?_, ?_⟩ <;> rw [← h] <;> rfl

/-- The four ways `main` can end: the usage exit, a failed assertion, a fault
on the null pointer after a failed `malloc`, and a run of the driver. -/
theorem main_cases [IntCast F] [Add F] (w : W) (chain0 : Chain P F) (argv : List String)
    (fuel : Nat) (r : Result P F W) (h : main x w chain0 argv fuel = some r) :
    (argv.length < 6 ∧ r = { exit := Exit.returned 0, trace := [Event.usage], final := none })
    ∨ (6 ≤ argv.length ∧ r = { exit := Exit.aborted, trace := setupTrace x argv, final := none }
        ∧ ¬ (x.checkTreePathCompletely (mainPath x w argv) = 1
              ∧ x.checkCompatibility (mainPath x w argv) (mainData x w argv) = 1))
    ∨ (6 ≤ argv.length
        ∧ r = { exit := Exit.faulted
                trace := setupTrace x argv
                  ++ [Event.malloc (mainN x argv), Event.removeMRCAFile, Event.removeChainFile]
                final := none }
        ∧ x.checkTreePathCompletely (mainPath x w argv) = 1
        ∧ x.checkCompatibility (mainPath x w argv) (mainData x w argv) = 1
        ∧ x.malloc (allocSize x (mainN x argv)) = false)
    ∨ (6 ≤ argv.length
        ∧ x.checkTreePathCompletely (mainPath x w argv) = 1
        ∧ x.checkCompatibility (mainPath x w argv) (mainData x w argv) = 1
        ∧ driverRun x (mainN x argv) (mainBp x w argv) (mainData x w argv)
            (readParameters x argv) (mainPath x w argv) (mainInitialisation x w argv).1 chain0
            (setupTrace x argv) fuel
          = some r) := by
  unfold main at h
  by_cases hargc : argv.length < 6
  · rw [if_pos hargc] at h
    exact Or.inl ⟨hargc, (Option.some.inj h).symm⟩
  · rw [if_neg hargc] at h
    by_cases hc : x.checkTreePathCompletely (mainPath x w argv) = 1
        ∧ x.checkCompatibility (mainPath x w argv) (mainData x w argv) = 1
    · rw [if_pos hc] at h
      unfold driver at h
      by_cases hm : x.malloc (allocSize x (mainN x argv)) = true
      · rw [if_pos hm] at h
        exact Or.inr (Or.inr (Or.inr ⟨by omega, hc.1, hc.2, h⟩))
      · rw [if_neg hm] at h
        exact Or.inr (Or.inr (Or.inl ⟨by omega, (Option.some.inj h).symm, hc.1, hc.2,
          by simpa using hm⟩))
    · rw [if_neg hc] at h
      exact Or.inr (Or.inl ⟨by omega, (Option.some.inj h).symm, hc⟩)

/-- The trace of a run that faults on the null pointer has no program point of
the driver. -/
theorem faultTrace_no_points (argv : List String) (n : Int) (pt : Point) (v : Vars P F)
    (w : W) :
    Event.reach pt v w ∉ setupTrace x argv
      ++ [Event.malloc n, Event.removeMRCAFile, Event.removeChainFile] := by
  unfold setupTrace
  split_ifs <;> simp

theorem points_faultTrace (argv : List String) (n : Int) :
    points (setupTrace x argv
      ++ [Event.malloc n, Event.removeMRCAFile, Event.removeChainFile] : List (Event P F W))
      = [] := by
  rw [points_append, points_setupTrace]
  simp [points, Event.point?]

/-- Loop invariant for the two logs: one MRCA record per completed sweep, one
path record per completed sweep next to the record of the initial path. -/
theorem logs_invariant_jitter (m : Machine P F W)
    (h : (countPoint Point.writeMrcaToFile m.trace : Int) = m.vars.full_scan_count
      ∧ (countPoint Point.writePathToChainFile m.trace : Int) = m.vars.full_scan_count + 1) :
    (countPoint Point.writeMrcaToFile (jitterStep x N data parm m).trace : Int)
        = (jitterStep x N data parm m).vars.full_scan_count
      ∧ (countPoint Point.writePathToChainFile (jitterStep x N data parm m).trace : Int)
        = (jitterStep x N data parm m).vars.full_scan_count + 1 := by
  rw [jitterStep_trace, jitterStep_full_scan_count, countPoint_append, countPoint_append]
  simpa using h

theorem logs_invariant_segment (i : Int) (m : Machine P F W)
    (h : (countPoint Point.writeMrcaToFile m.trace : Int) = m.vars.full_scan_count
      ∧ (countPoint Point.writePathToChainFile m.trace : Int) = m.vars.full_scan_count + 1) :
    (countPoint Point.writeMrcaToFile (segmentStep x bp data parm i m).trace : Int)
        = (segmentStep x bp data parm i m).vars.full_scan_count
      ∧ (countPoint Point.writePathToChainFile (segmentStep x bp data parm i m).trace : Int)
        = (segmentStep x bp data parm i m).vars.full_scan_count + 1 := by
  rw [segmentStep_full_scan_count]
  by_cases hi : i = x.length bp - 1
  · rw [segmentStep_trace_last x bp data parm i m hi, countPoint_append, countPoint_append,
      if_pos hi]
    obtain ⟨h1, h2⟩ := h
    constructor
    · simp; omega
    · simp; omega
  · rw [segmentStep_trace_inner x bp data parm i m hi, countPoint_append, countPoint_append,
      if_neg hi]
    simpa using h

end Traces

end Arbores

namespace Arbores

section Extends

variable {P D B W F : Type} (x : Externals P D B W F) (N : Int) (bp : B) (data : D)
  (parm : Parameters F)

theorem jitterStep_extends (m : Machine P F W) :
    m.trace <+: (jitterStep x N data parm m).trace := by
  rw [jitterStep_trace]; exact List.prefix_append _ _

theorem segmentStep_extends (i : Int) (m : Machine P F W) :
    m.trace <+: (segmentStep x bp data parm i m).trace := by
  by_cases hi : i = x.length bp - 1
  · rw [segmentStep_trace_last x bp data parm i m hi]; exact List.prefix_append _ _
  · rw [segmentStep_trace_inner x bp data parm i m hi]; exact List.prefix_append _ _

end Extends

/-- C7 (as amended). Output logs: a run of `main` that reaches the driver
first removes both logs and only then writes records; by the end, the number
of records `writeMrcaToFile` appended to the MRCA log equals the final
`full_scan_count`, and the number of records `writePathToChainFile` appended
to the path/chain log is one more, the initial path being written before the
first sweep. -/
theorem main_log_counts {P D B W F : Type} [IntCast F] [Add F] (x : Externals P D B W F)
    (w : W) (chain0 : Chain P F) (argv : List String) (fuel : Nat)
    (r : Result P F W) (v : Vars P F)
    (h : main x w chain0 argv fuel = some r) (hv : r.final = some v) :
    (setupTrace x argv
        ++ [Event.malloc (mainN x argv), Event.removeMRCAFile, Event.removeChainFile]) <+: r.trace
    ∧ points (setupTrace x argv : List (Event P F W)) = []
    ∧ (countPoint Point.writeMrcaToFile r.trace : Int) = v.full_scan_count
    ∧ (countPoint Point.writePathToChainFile r.trace : Int) = v.full_scan_count + 1 := by
  rcases main_cases x w chain0 argv fuel r h with ⟨_, hr⟩ | ⟨_, hr, _⟩ | ⟨_, hr, _⟩ | ⟨_, _, _, hd⟩
  · rw [hr] at hv; simp at hv
  · rw [hr] at hv; simp at hv
  · rw [hr] at hv; simp at hv
  · obtain ⟨m', ⟨hes, hc1, hc2⟩, _, htr, hfin, _⟩ :=
      driver_invariant x (mainN x argv) (mainBp x w argv) (mainData x w argv)
        (readParameters x argv)
        (fun m => (setupTrace x argv
            ++ [Event.malloc (mainN x argv), Event.removeMRCAFile, Event.removeChainFile])
              <+: m.trace
          ∧ (countPoint Point.writeMrcaToFile m.trace : Int) = m.vars.full_scan_count
          ∧ (countPoint Point.writePathToChainFile m.trace : Int) = m.vars.full_scan_count + 1)
        (fun m => (setupTrace x argv
            ++ [Event.malloc (mainN x argv), Event.removeMRCAFile, Event.removeChainFile])
              <+: m.trace
          ∧ (countPoint Point.writeMrcaToFile m.trace : Int) = m.vars.full_scan_count
          ∧ (countPoint Point.writePathToChainFile m.trace : Int) = m.vars.full_scan_count + 1)
        (fun m hm => ⟨hm.1.trans (jitterStep_extends x _ _ _ m),
          logs_invariant_jitter x _ _ _ m hm.2⟩)
        (fun i m hm _ => ⟨hm.1.trans (segmentStep_extends x _ _ _ i m),
          logs_invariant_segment x _ _ _ i m hm.2⟩)
        (fun m hm _ => hm)
        (mainPath x w argv) (mainInitialisation x w argv).1 chain0 (setupTrace x argv) fuel r
        (by
          refine ⟨?_, ?_, ?_⟩
          · rw [driverInit_trace]
            exact (List.prefix_append_right_inj _).2 ⟨_, rfl⟩
          · simp [countPoint, points_driverInit x _ _ _ _ _ _ _ (points_setupTrace x argv)]
            rfl
          · simp [countPoint, points_driverInit x _ _ _ _ _ _ _ (points_setupTrace x argv)]
            rfl)
        hd
    rw [hfin] at hv
    cases Option.some.inj hv
    refine ⟨?_, points_setupTrace x argv, ?_, ?_⟩
    · rw [htr]; exact hes.trans (List.prefix_append _ _)
    · rw [htr, countPoint_append]; simpa using hc1
    · rw [htr, countPoint_append]; simpa using hc2

/-- The scenario run (`N = 10`, two segments): four completed sweeps, four
MRCA records, five path records. -/
theorem main_log_counts_witness :
    ∃ r : Result Nat Int Nat, main (demo 2 99) 0 junk argv7 16 = some r
      ∧ (countPoint Point.writeMrcaToFile r.trace : Int) = 4
      ∧ (countPoint Point.writePathToChainFile r.trace : Int) = 4 + 1 := by
  have e : ((main (demo 2 99) 0 junk argv7 16).bind fun r => r.final.map
      fun v => v.full_scan_count) = some 4 := by decide
  cases hm : main (demo 2 99) 0 junk argv7 16 with
  | none => rw [hm] at e; simp at e
  | some r =>
    rw [hm] at e
    simp only [Option.some_bind] at e
    cases hf : r.final with
    | none => rw [hf] at e; simp at e
    | some v =>
      rw [hf] at e
      simp only [Option.map_some', Option.some.injEq] at e
      have := main_log_counts (demo 2 99) 0 junk argv7 16 r v hm hf
      rw [e] at this
      exact ⟨r, rfl, this.2.2.1, this.2.2.2⟩

/-- C7 as stated fails: in the scenario run the path/chain log receives five
records while `full_scan_count` ends at four. -/
theorem chain_log_count_counterexample :
    ¬ (∀ (r : Result Nat Int Nat) (v : Vars Nat Int),
        main (demo 2 99) 0 junk argv7 16 = some r → r.final = some v →
        (countPoint Point.writeMrcaToFile r.trace : Int) = v.full_scan_count
        ∧ (countPoint Point.writePathToChainFile r.trace : Int) = v.full_scan_count) := by
  intro hall
  have e : ((main (demo 2 99) 0 junk argv7 16).bind fun r => r.final.map
      fun v => ((countPoint Point.writePathToChainFile r.trace : Int), v.full_scan_count))
      = some (5, 4) := by decide
  cases hm : main (demo 2 99) 0 junk argv7 16 with
  | none => rw [hm] at e; simp at e
  | some r =>
    rw [hm] at e
    simp only [Option.some_bind] at e
    cases hf : r.final with
    | none => rw [hf] at e; simp at e
    | some v =>
      rw [hf] at e
      simp only [Option.map_some', Option.some.injEq, Prod.mk.injEq] at e
      have h2 := (hall r v hm hf).2
      omega

end Arbores

namespace Arbores

section InitialEntry

variable {P D B W F : Type} (x : Externals P D B W F) (N : Int) (bp : B) (data : D)
  (parm : Parameters F)

theorem varsAt_append (pt : Point) (a b : List (Event P F W)) :
    varsAt pt (a ++ b) = varsAt pt a ++ varsAt pt b := by
  simp [varsAt]

@[simp] theorem varsAt_nil (pt : Point) : varsAt pt ([] : List (Event P F W)) = [] := rfl

@[simp] theorem varsAt_reach (pt q : Point) (v : Vars P F) (w : W) (t : List (Event P F W)) :
    varsAt pt (Event.reach q v w :: t) = if q = pt then v :: varsAt pt t else varsAt pt t := by
  by_cases h : q = pt <;> simp [varsAt, h]

theorem varsAt_setupTrace (pt : Point) (argv : List String) :
    varsAt pt (setupTrace x argv : List (Event P F W)) = [] := by
  unfold setupTrace
  split_ifs <;> simp [varsAt]

theorem varsAt_jitterStep (pt : Point) (m : Machine P F W)
    (h1 : pt ≠ Point.jitteringCall) (h2 : pt ≠ Point.jitteringReturned) :
    varsAt pt (jitterStep x N data parm m).trace = varsAt pt m.trace := by
  rw [jitterStep_trace, varsAt_append]
  simp [Ne.symm h1, Ne.symm h2]

theorem varsAt_initialRecorded_segmentStep (i : Int) (m : Machine P F W) :
    varsAt Point.initialRecorded (segmentStep x bp data parm i m).trace
      = varsAt Point.initialRecorded m.trace := by
  by_cases hi : i = x.length bp - 1
  · rw [segmentStep_trace_last x bp data parm i m hi, varsAt_append]; simp
  · rw [segmentStep_trace_inner x bp data parm i m hi, varsAt_append]; simp

/-- A run that gets to the driver records the initial entry exactly once, with
the variables of `driverInit`. -/
theorem main_initialRecorded [IntCast F] [Add F] (w : W) (chain0 : Chain P F)
    (argv : List String) (fuel : Nat) (r : Result P F W) (vf : Vars P F)
    (h : main x w chain0 argv fuel = some r) (hv : r.final = some vf) :
    varsAt Point.initialRecorded r.trace =
      [(driverInit x (mainN x argv) (mainData x w argv) (readParameters x argv)
          (mainPath x w argv) (mainInitialisation x w argv).1 chain0 (setupTrace x argv)).vars] := by
  rcases main_cases x w chain0 argv fuel r h with ⟨_, hr⟩ | ⟨_, hr, _⟩ | ⟨_, hr, _⟩ | ⟨_, _, _, hd⟩
  · rw [hr] at hv; simp at hv
  · rw [hr] at hv; simp at hv
  · rw [hr] at hv; simp at hv
  · obtain ⟨m', hinv, _, htr, _, _⟩ :=
      driver_invariant x (mainN x argv) (mainBp x w argv) (mainData x w argv)
        (readParameters x argv)
        (fun m => varsAt Point.initialRecorded m.trace =
          [(driverInit x (mainN x argv) (mainData x w argv) (readParameters x argv)
            (mainPath x w argv) (mainInitialisation x w argv).1 chain0 (setupTrace x argv)).vars])
        (fun m => varsAt Point.initialRecorded m.trace =
          [(driverInit x (mainN x argv) (mainData x w argv) (readParameters x argv)
            (mainPath x w argv) (mainInitialisation x w argv).1 chain0 (setupTrace x argv)).vars])
        (fun m hm => (varsAt_jitterStep x _ _ _ _ m (by decide) (by decide)).trans hm)
        (fun i m hm _ => (varsAt_initialRecorded_segmentStep x _ _ _ i m).trans hm)
        (fun m hm _ => hm)
        (mainPath x w argv) (mainInitialisation x w argv).1 chain0 (setupTrace x argv) fuel r
        (by
          show varsAt Point.initialRecorded (driverInit _ _ _ _ _ _ _ _).trace = _
          rw [driverInit_trace, varsAt_append, varsAt_setupTrace]
          simp [varsAt])
        hd
    rw [htr, varsAt_append, hinv]
    simp

theorem driverInit_chain_zero [IntCast F] [Add F] (path : P) (w : W) (chain0 : Chain P F)
    (pre : List (Event P F W)) :
    (driverInit x N data parm path w chain0 pre).vars.chain 0 = initialEntry x path data parm := by
  simp [driverInit]

end InitialEntry

/-- C5. Initial entry sentinels: a run of `main` that gets to the driver
records the initial entry once, at index 0 (`iter` is 1 afterwards); that
entry holds the initial path, has `accept_indicator = 1`, `alpha = 1`,
`cardinality_ratio = 1`, `full_scan = 0`, `jitter_step = 0`, the five fields
`proposed_free_time_density`, `proposed_log_likelihood`, `proposed_log_prior`,
`proposed_number_of_free_times`, `proposed_recombination_density` equal to `-1`,
and `proposed_number_of_recombinations = countRecombinations(path)`. -/
theorem main_initial_entry_sentinels {P D B W F : Type} [IntCast F] [Add F]
    (x : Externals P D B W F) (w : W) (chain0 : Chain P F) (argv : List String) (fuel : Nat)
    (r : Result P F W) (vf : Vars P F)
    (h : main x w chain0 argv fuel = some r) (hv : r.final = some vf) :
    ∃ v : Vars P F, varsAt Point.initialRecorded r.trace = [v] ∧ v.iter = 1
      ∧ (v.chain 0).path = mainPath x w argv
      ∧ (v.chain 0).full_scan = 0
      ∧ (v.chain 0).data.accept_indicator = 1
      ∧ (v.chain 0).data.alpha = ((1 : Int) : F)
      ∧ (v.chain 0).data.cardinality_ratio = ((1 : Int) : F)
      ∧ (v.chain 0).data.jitter_step = 0
      ∧ (v.chain 0).data.proposed_free_time_density = ((-1 : Int) : F)
      ∧ (v.chain 0).data.proposed_log_likelihood = ((-1 : Int) : F)
      ∧ (v.chain 0).data.proposed_log_prior = ((-1 : Int) : F)
      ∧ (v.chain 0).data.proposed_number_of_free_times = -1
      ∧ (v.chain 0).data.proposed_recombination_density = ((-1 : Int) : F)
      ∧ (v.chain 0).data.proposed_number_of_recombinations
          = x.countRecombinations (mainPath x w argv) := by
  refine ⟨_, main_initialRecorded x w chain0 argv fuel r vf h hv, rfl, ?_⟩
  rw [driverInit_chain_zero]
  exact ⟨rfl, rfl, rfl, rfl, rfl, rfl, rfl, rfl, rfl, rfl, rfl, rfl⟩

end Arbores

namespace Arbores

/-- The scenario run (`N = 10`, two segments, sixteen rounds of fuel) ends. -/
theorem demo_run :
    ∃ (r : Result Nat Int Nat) (vf : Vars Nat Int),
      main (demo 2 99) 0 junk argv7 16 = some r ∧ r.final = some vf := by
  have e : ((main (demo 2 99) 0 junk argv7 16).bind fun r => r.final.map fun _ => ())
      = some () := by decide
  cases hm : main (demo 2 99) 0 junk argv7 16 with
  | none => rw [hm] at e; simp at e
  | some r =>
    rw [hm] at e
    simp only [Option.some_bind] at e
    cases hf : r.final with
    | none => rw [hf] at e; simp at e
    | some v => exact ⟨r, v, rfl, hf⟩

/-- In the scenario run the initial path is `1`, so the initial entry has one
"proposed" recombination and the sentinels of C5. -/
theorem main_initial_entry_sentinels_witness :
    ∃ (r : Result Nat Int Nat) (v : Vars Nat Int),
      main (demo 2 99) 0 junk argv7 16 = some r
      ∧ varsAt Point.initialRecorded r.trace = [v]
      ∧ (v.chain 0).data.accept_indicator = 1
      ∧ (v.chain 0).data.proposed_log_likelihood = -1
      ∧ (v.chain 0).data.proposed_number_of_recombinations = 1 := by
  obtain ⟨r, vf, hm, hf⟩ := demo_run
  obtain ⟨v, h1, _, _, _, h5, _, _, _, _, h10, _, _, _, h14⟩ :=
    main_initial_entry_sentinels (demo 2 99) 0 junk argv7 16 r vf hm hf
  exact ⟨r, v, hm, h1, h5, h10, h14⟩

/-- C6 (as amended). Initial entry densities: in the entry recorded at index
0, `log_likelihood` is `likelihood(path, data, parm).log_likelihood`,
`log_prior` is `smcprior(path, parm, data).density`, `log_posterior` is their
sum, and the five fields `current_free_time_density`, `current_log_likelihood`,
`current_log_prior`, `current_number_of_free_times`,
`current_recombination_density` hold the sentinel `-1`. -/
theorem main_initial_entry_densities {P D B W F : Type} [IntCast F] [Add F]
    (x : Externals P D B W F) (w : W) (chain0 : Chain P F) (argv : List String) (fuel : Nat)
    (r : Result P F W) (vf : Vars P F)
    (h : main x w chain0 argv fuel = some r) (hv : r.final = some vf) :
    ∃ v : Vars P F, varsAt Point.initialRecorded r.trace = [v]
      ∧ (v.chain 0).data.log_likelihood
          = x.likelihood (mainPath x w argv) (mainData x w argv) (readParameters x argv)
      ∧ (v.chain 0).data.log_prior
          = x.smcprior (mainPath x w argv) (readParameters x argv) (mainData x w argv)
      ∧ (v.chain 0).data.log_posterior
          = (v.chain 0).data.log_likelihood + (v.chain 0).data.log_prior
      ∧ (v.chain 0).data.current_free_time_density = ((-1 : Int) : F)
      ∧ (v.chain 0).data.current_log_likelihood = ((-1 : Int) : F)
      ∧ (v.chain 0).data.current_log_prior = ((-1 : Int) : F)
      ∧ (v.chain 0).data.current_number_of_free_times = -1
      ∧ (v.chain 0).data.current_recombination_density = ((-1 : Int) : F) := by
  refine ⟨_, main_initialRecorded x w chain0 argv fuel r vf h hv, ?_⟩
  rw [driverInit_chain_zero]
  exact ⟨rfl, rfl, rfl, rfl, rfl, rfl, rfl, rfl⟩

/-- In the scenario run the oracles return `5` and `3`: the initial entry has
`log_posterior = 8` and `current_log_likelihood = -1`. -/
theorem main_initial_entry_densities_witness :
    ∃ (r : Result Nat Int Nat) (v : Vars Nat Int),
      main (demo 2 99) 0 junk argv7 16 = some r
      ∧ varsAt Point.initialRecorded r.trace = [v]
      ∧ (v.chain 0).data.log_likelihood = 5
      ∧ (v.chain 0).data.log_prior = 3
      ∧ (v.chain 0).data.log_posterior = 8
      ∧ (v.chain 0).data.current_log_likelihood = -1 := by
  obtain ⟨r, vf, hm, hf⟩ := demo_run
  obtain ⟨v, h1, h2, h3, h4, _, h6, _⟩ :=
    main_initial_entry_densities (demo 2 99) 0 junk argv7 16 r vf hm hf
  refine ⟨r, v, hm, h1, h2, h3, ?_, h6⟩
  rw [h4, h2, h3]; rfl

/-- C6 as stated fails: with a likelihood oracle that returns `5` and a prior
oracle that returns `3`, the fields `current_log_likelihood` and
`current_log_prior` of the initial entry are not the oracle values. -/
theorem initial_current_densities_counterexample :
    ¬ (∀ (r : Result Nat Int Nat) (v : Vars Nat Int),
        main (demo 2 99) 0 junk argv7 16 = some r →
        v ∈ varsAt Point.initialRecorded r.trace →
        (v.chain 0).data.current_log_likelihood
            = (demo 2 99).likelihood (mainPath (demo 2 99) 0 argv7)
                (mainData (demo 2 99) 0 argv7) (readParameters (demo 2 99) argv7)
        ∧ (v.chain 0).data.current_log_prior
            = (demo 2 99).smcprior (mainPath (demo 2 99) 0 argv7)
                (readParameters (demo 2 99) argv7) (mainData (demo 2 99) 0 argv7)
        ∧ (v.chain 0).data.log_posterior
            = (v.chain 0).data.current_log_likelihood + (v.chain 0).data.current_log_prior) := by
  intro hall
  have e : ((main (demo 2 99) 0 junk argv7 16).map fun r =>
      (varsAt Point.initialRecorded r.trace).map fun v =>
        (v.chain 0).data.current_log_likelihood) = some [-1] := by decide
  cases hm : main (demo 2 99) 0 junk argv7 16 with
  | none => rw [hm] at e; simp at e
  | some r =>
    rw [hm] at e
    simp only [Option.map_some', Option.some.injEq] at e
    cases hl : varsAt Point.initialRecorded r.trace with
    | nil => rw [hl] at e; simp at e
    | cons v t =>
      rw [hl] at e
      simp only [List.map_cons, List.cons.injEq] at e
      have h2 := (hall r v hm (by rw [hl]; exact List.mem_cons_self _ _)).1
      rw [e.1] at h2
      exact absurd h2 (by decide)

end Arbores

namespace Arbores

section Setup

variable {P D B W F : Type} (x : Externals P D B W F) (N : Int) (bp : B) (data : D)
  (parm : Parameters F)

/-- Lines 93-96: with fewer than six words on the command line (`argc < 6`)
`main` prints the usage message and returns 0; nothing else happens. -/
theorem main_usage [IntCast F] [Add F] (w : W) (chain0 : Chain P F) (argv : List String)
    (fuel : Nat) (hargc : argv.length < 6) :
    main x w chain0 argv fuel =
      some { exit := Exit.returned 0, trace := [Event.usage], final := none } := by
  unfold main
  rw [if_pos hargc]

/-- The events of a step are program points. -/
theorem jitterStep_events (Q : Event P F W → Prop) (hQ : ∀ pt v w, Q (Event.reach pt v w))
    (m : Machine P F W) (h : ∀ e ∈ m.trace, Q e) :
    ∀ e ∈ (jitterStep x N data parm m).trace, Q e := by
  rw [jitterStep_trace]
  intro e he
  rcases List.mem_append.1 he with h1 | h1
  · exact h e h1
  · simp only [List.mem_cons, List.mem_singleton, List.not_mem_nil, or_false] at h1
    rcases h1 with rfl | rfl <;> exact hQ _ _ _

theorem segmentStep_events (Q : Event P F W → Prop) (hQ : ∀ pt v w, Q (Event.reach pt v w))
    (i : Int) (m : Machine P F W) (h : ∀ e ∈ m.trace, Q e) :
    ∀ e ∈ (segmentStep x bp data parm i m).trace, Q e := by
  intro e he
  by_cases hi : i = x.length bp - 1
  · rw [segmentStep_trace_last x bp data parm i m hi] at he
    rcases List.mem_append.1 he with h1 | h1
    · exact h e h1
    · simp only [List.mem_cons, List.mem_singleton, List.not_mem_nil, or_false] at h1
      repeat (rcases h1 with rfl | h1; · exact hQ _ _ _)
  · rw [segmentStep_trace_inner x bp data parm i m hi] at he
    rcases List.mem_append.1 he with h1 | h1
    · exact h e h1
    · simp only [List.mem_cons, List.mem_singleton, List.not_mem_nil, or_false] at h1
      rcases h1 with rfl | rfl | rfl <;> exact hQ _ _ _

/-- What the trace of a run past the argument check is made of: the set-up
events, then the allocation and the removal of the logs, then program points
of the driver. -/
theorem main_trace_events [IntCast F] [Add F] (w : W) (chain0 : Chain P F)
    (argv : List String) (fuel : Nat) (r : Result P F W) (hargc : 6 ≤ argv.length)
    (h : main x w chain0 argv fuel = some r) :
    setupTrace x argv <+: r.trace
    ∧ ∀ e ∈ r.trace, e ∈ setupTrace x argv ∨ e = Event.malloc (mainN x argv)
        ∨ e = Event.removeMRCAFile ∨ e = Event.removeChainFile
        ∨ ∃ pt v w', e = Event.reach pt v w' := by
  rcases main_cases x w chain0 argv fuel r h with
    ⟨hlt, _⟩ | ⟨_, hr, _⟩ | ⟨_, hr, _⟩ | ⟨_, _, _, hd⟩
  · omega
  · rw [hr]
    exact ⟨List.prefix_refl _, fun e he => Or.inl he⟩
  · rw [hr]
    refine ⟨List.prefix_append _ _, fun e he => ?_⟩
    rcases List.mem_append.1 he with h1 | h1
    · exact Or.inl h1
    · simp only [List.mem_cons, List.mem_singleton, List.not_mem_nil, or_false] at h1
      exact Or.inr (h1.imp id fun h2 => h2.imp id fun h3 => Or.inl h3)
  · obtain ⟨m', ⟨hp, hall⟩, _, htr, _, _⟩ :=
      driver_invariant x (mainN x argv) (mainBp x w argv) (mainData x w argv)
        (readParameters x argv)
        (fun m => setupTrace x argv <+: m.trace
          ∧ ∀ e ∈ m.trace, e ∈ setupTrace x argv ∨ e = Event.malloc (mainN x argv)
              ∨ e = Event.removeMRCAFile ∨ e = Event.removeChainFile
              ∨ ∃ pt v w', e = Event.reach pt v w')
        (fun m => setupTrace x argv <+: m.trace
          ∧ ∀ e ∈ m.trace, e ∈ setupTrace x argv ∨ e = Event.malloc (mainN x argv)
              ∨ e = Event.removeMRCAFile ∨ e = Event.removeChainFile
              ∨ ∃ pt v w', e = Event.reach pt v w')
        (fun m hm => ⟨hm.1.trans (jitterStep_extends x _ _ _ m),
          jitterStep_events x _ _ _ _
            (fun pt v w' => Or.inr (Or.inr (Or.inr (Or.inr ⟨pt, v, w', rfl⟩)))) m hm.2⟩)
        (fun i m hm _ => ⟨hm.1.trans (segmentStep_extends x _ _ _ i m),
          segmentStep_events x _ _ _ _
            (fun pt v w' => Or.inr (Or.inr (Or.inr (Or.inr ⟨pt, v, w', rfl⟩)))) i m hm.2⟩)
        (fun m hm _ => hm)
        (mainPath x w argv) (mainInitialisation x w argv).1 chain0 (setupTrace x argv) fuel r
        (by
          constructor
          · show setupTrace x argv <+: (driverInit _ _ _ _ _ _ _ _).trace
            rw [driverInit_trace]; exact List.prefix_append _ _
          · show ∀ e ∈ (driverInit _ _ _ _ _ _ _ _).trace, _
            rw [driverInit_trace]
            intro e he
            rcases List.mem_append.1 he with h1 | h1
            · exact Or.inl h1
            · simp only [List.mem_cons, List.mem_singleton, List.not_mem_nil, or_false] at h1
              rcases h1 with rfl | rfl | rfl | rfl | rfl
              · exact Or.inr (Or.inl rfl)
              · exact Or.inr (Or.inr (Or.inl rfl))
              · exact Or.inr (Or.inr (Or.inr (Or.inl rfl)))
              · exact Or.inr (Or.inr (Or.inr (Or.inr ⟨_, _, _, rfl⟩)))
              · exact Or.inr (Or.inr (Or.inr (Or.inr ⟨_, _, _, rfl⟩))))
        hd
    rw [htr]
    refine ⟨hp.trans (List.prefix_append _ _), fun e he => ?_⟩
    rcases List.mem_append.1 he with h1 | h1
    · exact hall e h1
    · rw [List.mem_singleton] at h1
      exact Or.inr (Or.inr (Or.inr (Or.inr ⟨_, _, _, h1⟩)))

theorem usage_not_mem_setupTrace (argv : List String) :
    (Event.usage : Event P F W) ∉ setupTrace x argv := by
  unfold setupTrace
  split_ifs <;> simp

/-- With exactly six words on the command line (five positional arguments)
`main` does not take the usage exit: it reads `argv[1]` to `argv[6]`, the last
of which is the null pointer, and goes on to the output directory and the data
file. -/
theorem main_six_words [IntCast F] [Add F] (w : W) (chain0 : Chain P F)
    (argv : List String) (fuel : Nat) (r : Result P F W) (hargc : argv.length = 6)
    (h : main x w chain0 argv fuel = some r) :
    Event.usage ∉ r.trace
    ∧ Event.argRead 1 ∈ r.trace ∧ Event.argRead 6 ∈ r.trace
    ∧ Event.mkdir none ∈ r.trace
    ∧ Event.readData (argv.getD 1 "") ∈ r.trace := by
  obtain ⟨hp, hall⟩ := main_trace_events x w chain0 argv fuel r (by omega) h
  have hnone : argv.get? 6 = none := List.get?_eq_none.2 (by omega)
  have hsub : ∀ e, e ∈ setupTrace x argv → e ∈ r.trace := fun e he => hp.subset he
  refine ⟨fun hu => ?_, hsub _ ?_, hsub _ ?_, hsub _ ?_, hsub _ ?_⟩
  · rcases hall _ hu with h1 | h1 | h1 | h1 | ⟨_, _, _, h1⟩
    · exact usage_not_mem_setupTrace x argv h1
    all_goals cases h1
  all_goals
    unfold setupTrace
    simp [hnone, hargc]

end Setup

/-- The run on five positional arguments (no output directory) ends. -/
theorem argv6_run :
    ∃ r : Result Nat Int Nat, main (demo 2 99) 0 junk argv6 16 = some r := by
  have e : ((main (demo 2 99) 0 junk argv6 16).map fun _ => ()) = some () := by decide
  cases hm : main (demo 2 99) 0 junk argv6 16 with
  | none => rw [hm] at e; simp at e
  | some r => exact ⟨r, rfl⟩

/-- C9, the failing input: on a command line with five positional arguments
(data file, `N`, mutation rate, recombination rate, seed; no output directory)
`main` prints no usage message; it reads the argument values, calls `mkdir` with
the null pointer `argv[6]` and reads the data file.  (What `mkdir` and
`createResultFullPahts` do with a null pointer is outside the embedding, which
lets the run go on to the driver.) -/
theorem five_arguments_run_is_not_usage :
    ∃ r : Result Nat Int Nat, main (demo 2 99) 0 junk argv6 16 = some r
      ∧ argv6.length - 1 = 5
      ∧ Event.usage ∉ r.trace
      ∧ Event.argRead 1 ∈ r.trace ∧ Event.argRead 6 ∈ r.trace
      ∧ Event.mkdir none ∈ r.trace
      ∧ Event.readData "data.txt" ∈ r.trace
      ∧ r.final.map (fun v => v.iter) = some 10 := by
  obtain ⟨r, hm⟩ := argv6_run
  have h := main_six_words (demo 2 99) 0 junk argv6 16 r rfl hm
  have e : ((main (demo 2 99) 0 junk argv6 16).map fun r => r.final.map fun v => v.iter)
      = some (some 10) := by decide
  rw [hm] at e
  exact ⟨r, hm, rfl, h.1, h.2.1, h.2.2.1, h.2.2.2.1, h.2.2.2.2, Option.some.inj e⟩

end Arbores

namespace Arbores

section Capacity

variable {P D B W F : Type} (x : Externals P D B W F) (N : Int) (bp : B) (data : D)
  (parm : Parameters F)

theorem iters_append (a b : List (Event P F W)) : iters (a ++ b) = iters a ++ iters b := by
  simp [iters]

@[simp] theorem iters_nil : iters ([] : List (Event P F W)) = [] := rfl

@[simp] theorem iters_reach (pt : Point) (v : Vars P F) (w : W) (t : List (Event P F W)) :
    iters (Event.reach pt v w :: t) = v.iter :: iters t := by
  simp [iters, Event.vars?]

theorem iters_setupTrace (argv : List String) :
    iters (setupTrace x argv : List (Event P F W)) = [] := by
  unfold setupTrace
  split_ifs <;> simp [iters, Event.vars?]

theorem iters_jitterStep (m : Machine P F W) :
    iters (jitterStep x N data parm m).trace
      = iters m.trace ++ [m.vars.iter, (jitterStep x N data parm m).vars.iter] := by
  rw [jitterStep_trace, iters_append]; simp

theorem segmentRecord_iter (i : Int) (m : Machine P F W) :
    (segmentRecord x bp data parm i m).vars.iter = m.vars.iter + 1 := rfl

/-- The values of `iter` recorded by a segment step: the old one at the call,
the new one from then on. -/
theorem iters_segmentStep (i : Int) (m : Machine P F W) :
    ∃ k, iters (segmentStep x bp data parm i m).trace
      = iters m.trace ++ m.vars.iter :: List.replicate (k + 1) (m.vars.iter + 1) := by
  by_cases hi : i = x.length bp - 1
  · refine ⟨5, ?_⟩
    rw [segmentStep_trace_last x bp data parm i m hi, iters_append]
    simp [segmentStep_iter, segmentRecord_iter, List.replicate]
  · refine ⟨1, ?_⟩
    rw [segmentStep_trace_inner x bp data parm i m hi, iters_append]
    simp [segmentStep_iter, segmentRecord_iter, List.replicate]

/-- Capacity bound for a chain length of at least 1: when the jitter kernel
returns a value between the `iter` it is given and `N`, the values `iter` takes
along a run of `main` never decrease and never exceed `N`. -/
theorem main_capacity_bound [IntCast F] [Add F] (w : W) (chain0 : Chain P F)
    (argv : List String) (fuel : Nat) (r : Result P F W)
    (hN : 1 ≤ mainN x argv)
    (hj : ∀ (w' : W) (c : Chain P F) (it : Int), it ≤ mainN x argv →
      it ≤ (x.jittering w' c it (mainN x argv) (readParameters x argv) (mainData x w argv)).2.2
      ∧ (x.jittering w' c it (mainN x argv) (readParameters x argv) (mainData x w argv)).2.2
          ≤ mainN x argv)
    (h : main x w chain0 argv fuel = some r) :
    (iters r.trace).Pairwise (fun a b => a ≤ b) ∧ ∀ k ∈ iters r.trace, k ≤ mainN x argv := by
  rcases main_cases x w chain0 argv fuel r h with ⟨_, hr⟩ | ⟨_, hr, _⟩ | ⟨_, hr, _⟩ | ⟨_, _, _, hd⟩
  · rw [hr]; simp [iters, Event.vars?]
  · rw [hr, iters_setupTrace]; simp
  · rw [hr]
    show (iters (setupTrace x argv ++ _)).Pairwise _ ∧ ∀ k ∈ iters (setupTrace x argv ++ _), _
    rw [iters_append, iters_setupTrace]
    simp [iters, Event.vars?]
  · obtain ⟨m', ⟨hp, hle, hcap⟩, _, htr, _, _⟩ :=
      driver_invariant x (mainN x argv) (mainBp x w argv) (mainData x w argv)
        (readParameters x argv)
        (fun m => (iters m.trace).Pairwise (fun a b => a ≤ b)
          ∧ (∀ k ∈ iters m.trace, k ≤ m.vars.iter) ∧ m.vars.iter ≤ mainN x argv)
        (fun m => (iters m.trace).Pairwise (fun a b => a ≤ b)
          ∧ (∀ k ∈ iters m.trace, k ≤ m.vars.iter) ∧ m.vars.iter ≤ mainN x argv)
        (fun m hm => by
          obtain ⟨hp, hle, hcap⟩ := hm
          obtain ⟨h1, h2⟩ := hj m.world m.vars.chain m.vars.iter hcap
          rw [← jitterStep_iter x _ _ _ m] at h1 h2
          show (iters (jitterStep _ _ _ _ m).trace).Pairwise _
            ∧ (∀ k ∈ iters (jitterStep _ _ _ _ m).trace, k ≤ (jitterStep _ _ _ _ m).vars.iter)
            ∧ (jitterStep _ _ _ _ m).vars.iter ≤ mainN x argv
          rw [iters_jitterStep]
          refine ⟨List.pairwise_append.2 ⟨hp, by simpa using h1, fun a ha b hb => ?_⟩,
            fun k hk => ?_, h2⟩
          · have := hle a ha
            simp only [List.mem_cons, List.mem_singleton, List.not_mem_nil, or_false] at hb
            rcases hb with rfl | rfl <;> omega
          · simp only [List.mem_append, List.mem_cons, List.mem_singleton, List.not_mem_nil,
              or_false] at hk
            rcases hk with hk | rfl | rfl
            · have := hle k hk; omega
            · exact h1
            · exact le_refl _)
        (fun i m hm hlt => by
          obtain ⟨hp, hle, _⟩ := hm
          obtain ⟨k, hk⟩ := iters_segmentStep x (mainBp x w argv) (mainData x w argv)
            (readParameters x argv) i m
          show (iters (segmentStep _ _ _ _ i m).trace).Pairwise _
            ∧ (∀ k ∈ iters (segmentStep _ _ _ _ i m).trace,
                k ≤ (segmentStep _ _ _ _ i m).vars.iter)
            ∧ (segmentStep _ _ _ _ i m).vars.iter ≤ mainN x argv
          rw [hk, segmentStep_iter]
          refine ⟨List.pairwise_append.2 ⟨hp, ?_, fun a ha b hb => ?_⟩, fun j hj' => ?_,
            by omega⟩
          · refine List.pairwise_cons.2 ⟨fun b hb => ?_, ?_⟩
            · rw [List.eq_of_mem_replicate hb]; omega
            · exact List.pairwise_replicate.2 (Or.inr (le_refl _))
          · have := hle a ha
            rcases List.mem_cons.1 hb with rfl | hb
            · exact this
            · rw [List.eq_of_mem_replicate hb]; omega
          · rcases List.mem_append.1 hj' with hj' | hj'
            · have := hle j hj'; omega
            · rcases List.mem_cons.1 hj' with rfl | hj'
              · omega
              · rw [List.eq_of_mem_replicate hj'])
        (fun m hm _ => hm)
        (mainPath x w argv) (mainInitialisation x w argv).1 chain0 (setupTrace x argv) fuel r
        (by
          show (iters (driverInit _ _ _ _ _ _ _ _).trace).Pairwise _
            ∧ (∀ k ∈ iters (driverInit _ _ _ _ _ _ _ _).trace,
                k ≤ (driverInit _ _ _ _ _ _ _ _).vars.iter)
            ∧ (driverInit _ _ _ _ _ _ _ _).vars.iter ≤ mainN x argv
          rw [driverInit_trace, iters_append, iters_setupTrace, driverInit_iter]
          simp [iters, Event.vars?, driverInit_iter, hN])
        hd
    rw [htr, iters_append]
    constructor
    · refine List.pairwise_append.2 ⟨hp, by simp, fun a ha b hb => ?_⟩
      have := hle a ha
      simp only [iters_reach, iters_nil, List.mem_singleton] at hb
      omega
    · intro k hk
      rcases List.mem_append.1 hk with hk | hk
      · have := hle k hk; omega
      · simp only [iters_reach, iters_nil, List.mem_singleton] at hk
        omega

end Capacity

/-- A run that gets to the driver allocates the chain and removes the old
logs right after the set-up. -/
theorem main_allocation {P D B W F : Type} [IntCast F] [Add F] (x : Externals P D B W F)
    (w : W) (chain0 : Chain P F) (argv : List String) (fuel : Nat)
    (r : Result P F W) (vf : Vars P F)
    (h : main x w chain0 argv fuel = some r) (hv : r.final = some vf) :
    (setupTrace x argv
        ++ [Event.malloc (mainN x argv), Event.removeMRCAFile, Event.removeChainFile])
      <+: r.trace := by
  rcases main_cases x w chain0 argv fuel r h with ⟨_, hr⟩ | ⟨_, hr, _⟩ | ⟨_, hr, _⟩ | ⟨_, _, _, hd⟩
  · rw [hr] at hv; simp at hv
  · rw [hr] at hv; simp at hv
  · rw [hr] at hv; simp at hv
  · obtain ⟨m', hes, _, htr, _, _⟩ :=
      driver_invariant x (mainN x argv) (mainBp x w argv) (mainData x w argv)
        (readParameters x argv)
        (fun m => (setupTrace x argv
            ++ [Event.malloc (mainN x argv), Event.removeMRCAFile, Event.removeChainFile])
              <+: m.trace)
        (fun m => (setupTrace x argv
            ++ [Event.malloc (mainN x argv), Event.removeMRCAFile, Event.removeChainFile])
              <+: m.trace)
        (fun m hm => hm.trans (jitterStep_extends x _ _ _ m))
        (fun i m hm _ => hm.trans (segmentStep_extends x _ _ _ i m))
        (fun m hm _ => hm)
        (mainPath x w argv) (mainInitialisation x w argv).1 chain0 (setupTrace x argv) fuel r
        (by
          show _ <+: (driverInit _ _ _ _ _ _ _ _).trace
          rw [driverInit_trace]
          exact (List.prefix_append_right_inj _).2 ⟨_, rfl⟩)
        hd
    rw [htr]; exact hes.trans (List.prefix_append _ _)

/-- The run that asks for a chain of length zero ends. -/
theorem argvZero_run :
    ∃ (r : Result Nat Int Nat) (vf : Vars Nat Int),
      main (demo 2 99) 0 junk argvZero 16 = some r ∧ r.final = some vf ∧ vf.iter = 1 := by
  have e : ((main (demo 2 99) 0 junk argvZero 16).bind fun r => r.final.map fun v => v.iter)
      = some 1 := by decide
  cases hm : main (demo 2 99) 0 junk argvZero 16 with
  | none => rw [hm] at e; simp at e
  | some r =>
    rw [hm] at e
    simp only [Option.some_bind] at e
    cases hf : r.final with
    | none => rw [hf] at e; simp at e
    | some v =>
      rw [hf] at e
      exact ⟨r, v, rfl, hf, by simpa using e⟩

/-- C1, the failing input: with `N = 0` on the command line and a jitter
kernel that returns the `iter` it is given, `main` still writes the initial
entry at `chain[0]` of a block allocated for zero entries and raises `iter` to
1, above `N`; the run ends with `iter = 1` passed to `deallocateChain`. -/
theorem zero_length_chain_overrun :
    ∃ (r : Result Nat Int Nat) (v vf : Vars Nat Int),
      main (demo 2 99) 0 junk argvZero 16 = some r
      ∧ mainN (demo 2 99) argvZero = 0
      ∧ (∀ (w : Nat) (c : Chain Nat Int) (it : Int) (p : Parameters Int),
          ((demo 2 99).jittering w c it 0 p ()).2.2 = it)
      ∧ Event.malloc 0 ∈ r.trace
      ∧ varsAt Point.initialRecorded r.trace = [v] ∧ v.iter = 1
      ∧ r.final = some vf ∧ vf.iter = 1
      ∧ ¬ (∀ k ∈ iters r.trace, k ≤ mainN (demo 2 99) argvZero) := by
  obtain ⟨r, vf, hm, hf, hit⟩ := argvZero_run
  have hinit := main_initialRecorded (demo 2 99) 0 junk argvZero 16 r vf hm hf
  have hlog := main_allocation (demo 2 99) 0 junk argvZero 16 r vf hm hf
  have hN : mainN (demo 2 99) argvZero = 0 := by decide
  rw [hN] at hlog
  refine ⟨r, _, vf, hm, hN, fun _ _ _ _ => rfl, ?_, hinit, rfl, hf, hit, ?_⟩
  · exact hlog.subset (by simp)
  · intro hall
    have e : ((main (demo 2 99) 0 junk argvZero 16).map fun r => iters r.trace)
        = some [1, 1, 1, 1, 1] := by decide
    rw [hm] at e
    have e' : iters r.trace = [1, 1, 1, 1, 1] := Option.some.inj e
    have := hall 1 (by rw [e']; simp)
    exact absurd this (by decide)

end Arbores

namespace Arbores

section PointInvariants

variable {P D B W F : Type} (x : Externals P D B W F) (N : Int) (bp : B) (data : D)
  (parm : Parameters F)

theorem mem_varsAt (pt : Point) (v : Vars P F) (t : List (Event P F W)) :
    v ∈ varsAt pt t ↔ ∃ w, Event.reach pt v w ∈ t := by
  induction t with
  | nil => simp
  | cons e t ih =>
    cases e with
    | reach q u w' =>
      by_cases hq : q = pt
      · subst hq
        simp only [varsAt_reach, if_true, List.mem_cons, ih, Event.reach.injEq, true_and]
        constructor
        · rintro (rfl | ⟨w, hw⟩)
          · exact ⟨w', Or.inl ⟨rfl, rfl⟩⟩
          · exact ⟨w, Or.inr hw⟩
        · rintro ⟨w, ⟨h1, _⟩ | hw⟩
          · exact Or.inl h1
          · exact Or.inr ⟨w, hw⟩
      · simp only [varsAt_reach, hq, if_false, ih, List.mem_cons, Event.reach.injEq]
        constructor
        · rintro ⟨w, hw⟩; exact ⟨w, Or.inr hw⟩
        · rintro ⟨w, ⟨h1, _⟩ | hw⟩
          · exact absurd h1.symm hq
          · exact ⟨w, hw⟩
    | _ => simpa [varsAt] using ih

/-- A property of program points holds along a trace extended by one point at
the front. -/
theorem holds_cons (R : Point → Vars P F → W → Prop) (q : Point) (u : Vars P F) (s : W)
    (t : List (Event P F W)) (hq : R q u s)
    (ht : ∀ pt v w, Event.reach pt v w ∈ t → R pt v w) :
    ∀ pt v w, Event.reach pt v w ∈ Event.reach q u s :: t → R pt v w := by
  intro pt v w he
  rcases List.mem_cons.1 he with h0 | h0
  · cases h0; exact hq
  · exact ht pt v w h0

theorem holds_nil (R : Point → Vars P F → W → Prop) :
    ∀ pt v w, Event.reach pt v w ∈ ([] : List (Event P F W)) → R pt v w :=
  fun _ _ _ he => absurd he (List.not_mem_nil _)

theorem holds_append (R : Point → Vars P F → W → Prop) (a b : List (Event P F W))
    (ha : ∀ pt v w, Event.reach pt v w ∈ a → R pt v w)
    (hb : ∀ pt v w, Event.reach pt v w ∈ b → R pt v w) :
    ∀ pt v w, Event.reach pt v w ∈ a ++ b → R pt v w :=
  fun pt v w he => (List.mem_append.1 he).elim (ha pt v w) (hb pt v w)

/-- The program points of a trace satisfy `R` after a jitter step, when the
two points of the step do. -/
theorem jitterStep_holds (R : Point → Vars P F → W → Prop) (m : Machine P F W)
    (h : ∀ pt v w, Event.reach pt v w ∈ m.trace → R pt v w)
    (h1 : R Point.jitteringCall m.vars m.world)
    (h2 : R Point.jitteringReturned (jitterStep x N data parm m).vars
      (jitterStep x N data parm m).world) :
    ∀ pt v w, Event.reach pt v w ∈ (jitterStep x N data parm m).trace → R pt v w := by
  rw [jitterStep_trace]
  exact holds_append R _ _ h (holds_cons R _ _ _ _ h1 (holds_cons R _ _ _ _ h2 (holds_nil R)))

/-- The program points of a trace satisfy `R` after a segment step, when the
points of the step do. -/
theorem segmentStep_holds (R : Point → Vars P F → W → Prop) (i : Int) (m : Machine P F W)
    (h : ∀ pt v w, Event.reach pt v w ∈ m.trace → R pt v w)
    (h1 : R (Point.segmentSamplerCall i) m.vars m.world)
    (h2 : R (Point.segmentRecorded i) (segmentRecord x bp data parm i m).vars
      (segmentRecord x bp data parm i m).world)
    (h3 : i = x.length bp - 1 → ∀ pt, pt = Point.timesToMRCA ∨ pt = Point.writeMrcaToFile
        ∨ pt = Point.writePathToChainFile →
      R pt { (segmentRecord x bp data parm i m).vars with
            chain := setFullScan (segmentRecord x bp data parm i m).vars.chain
              ((segmentRecord x bp data parm i m).vars.iter - 1) 1 }
        (segmentRecord x bp data parm i m).world)
    (h4 : i = x.length bp - 1 → R Point.mapCall (segmentStep x bp data parm i m).vars
      (segmentStep x bp data parm i m).world)
    (h5 : R (Point.segmentFlagged i) (segmentStep x bp data parm i m).vars
      (segmentStep x bp data parm i m).world) :
    ∀ pt v w, Event.reach pt v w ∈ (segmentStep x bp data parm i m).trace → R pt v w := by
  by_cases hi : i = x.length bp - 1
  · rw [segmentStep_trace_last x bp data parm i m hi]
    refine holds_append R _ _ h ?_
    refine holds_cons R _ _ _ _ h1 (holds_cons R _ _ _ _ h2 ?_)
    refine holds_cons R _ _ _ _ (h3 hi _ (Or.inl rfl)) ?_
    refine holds_cons R _ _ _ _ (h3 hi _ (Or.inr (Or.inl rfl))) ?_
    refine holds_cons R _ _ _ _ (h3 hi _ (Or.inr (Or.inr rfl))) ?_
    exact holds_cons R _ _ _ _ (h4 hi) (holds_cons R _ _ _ _ h5 (holds_nil R))
  · rw [segmentStep_trace_inner x bp data parm i m hi]
    refine holds_append R _ _ h ?_
    exact holds_cons R _ _ _ _ h1 (holds_cons R _ _ _ _ h2 (holds_cons R _ _ _ _ h5
      (holds_nil R)))

theorem setupTrace_no_points (argv : List String) (pt : Point) (v : Vars P F) (w : W) :
    Event.reach pt v w ∉ setupTrace x argv := by
  unfold setupTrace
  split_ifs <;> simp

/-- Every program point of a run of `main` satisfies `R`, when `R` holds where
the initial entry is recorded, is established by every step of the loop from the
loop invariants `Pre` (before `jittering`) and `Inv` (after it and after every
segment), and holds at the `break`. -/
theorem main_points_invariant [IntCast F] [Add F] (w : W) (chain0 : Chain P F)
    (argv : List String) (fuel : Nat) (r : Result P F W)
    (R : Point → Vars P F → W → Prop) (Pre Inv : Machine P F W → Prop)
    (hinit : Pre (driverInit x (mainN x argv) (mainData x w argv) (readParameters x argv)
      (mainPath x w argv) (mainInitialisation x w argv).1 chain0 (setupTrace x argv)))
    (hinitR : x.checkTreePathCompletely (mainPath x w argv) = 1 →
      x.checkCompatibility (mainPath x w argv) (mainData x w argv) = 1 →
      ∀ pt, pt = Point.initialRecorded ∨ pt = Point.writePathToChainFile →
      R pt (driverInit x (mainN x argv) (mainData x w argv) (readParameters x argv)
        (mainPath x w argv) (mainInitialisation x w argv).1 chain0 (setupTrace x argv)).vars
        (mainInitialisation x w argv).1)
    (hj : ∀ m, Pre m →
      Inv (jitterStep x (mainN x argv) (mainData x w argv) (readParameters x argv) m)
      ∧ R Point.jitteringCall m.vars m.world
      ∧ R Point.jitteringReturned
          (jitterStep x (mainN x argv) (mainData x w argv) (readParameters x argv) m).vars
          (jitterStep x (mainN x argv) (mainData x w argv) (readParameters x argv) m).world)
    (hs : ∀ i m, Inv m → m.vars.iter < mainN x argv →
      Inv (segmentStep x (mainBp x w argv) (mainData x w argv) (readParameters x argv) i m)
      ∧ ∀ pt v w', Event.reach pt v w' ∈ (segmentStep x (mainBp x w argv) (mainData x w argv)
            (readParameters x argv) i m).trace →
          Event.reach pt v w' ∈ m.trace ∨ R pt v w')
    (hback : ∀ m, Inv m → m.vars.iter < mainN x argv → Pre m)
    (hend : ∀ m, Inv m → mainN x argv ≤ m.vars.iter → R Point.deallocateChain m.vars m.world)
    (h : main x w chain0 argv fuel = some r) :
    ∀ pt v w', Event.reach pt v w' ∈ r.trace → R pt v w' := by
  rcases main_cases x w chain0 argv fuel r h with
    ⟨_, hr⟩ | ⟨_, hr, _⟩ | ⟨_, hr, _⟩ | ⟨_, hc1, hc2, hd⟩
  · rw [hr]; intro pt v w' he; simp at he
  · rw [hr]; intro pt v w' he; exact absurd he (setupTrace_no_points x argv pt v w')
  · rw [hr]; intro pt v w' he; exact absurd he (faultTrace_no_points x argv _ pt v w')
  · obtain ⟨m', ⟨hall, hinv⟩, hge, htr, _, _⟩ :=
      driver_invariant x (mainN x argv) (mainBp x w argv) (mainData x w argv)
        (readParameters x argv)
        (fun m => (∀ pt v w', Event.reach pt v w' ∈ m.trace → R pt v w') ∧ Pre m)
        (fun m => (∀ pt v w', Event.reach pt v w' ∈ m.trace → R pt v w') ∧ Inv m)
        (fun m hm => ⟨jitterStep_holds x _ _ _ R m hm.1 (hj m hm.2).2.1 (hj m hm.2).2.2,
          (hj m hm.2).1⟩)
        (fun i m hm hlt => ⟨fun pt v w' he =>
            ((hs i m hm.2 hlt).2 pt v w' he).elim (hm.1 pt v w') id, (hs i m hm.2 hlt).1⟩)
        (fun m hm hlt => ⟨hm.1, hback m hm.2 hlt⟩)
        (mainPath x w argv) (mainInitialisation x w argv).1 chain0 (setupTrace x argv) fuel r
        (by
          refine ⟨?_, hinit⟩
          intro pt v w' he
          rw [driverInit_trace] at he
          rcases List.mem_append.1 he with h0 | h0
          · exact absurd h0 (setupTrace_no_points x argv pt v w')
          · simp only [List.mem_cons, List.mem_singleton, List.not_mem_nil, or_false,
              Event.reach.injEq, false_or] at h0
            rcases h0 with h0 | h0 | h0 | ⟨rfl, rfl, rfl⟩ | ⟨rfl, rfl, rfl⟩
            · cases h0
            · cases h0
            · cases h0
            · exact hinitR hc1 hc2 _ (Or.inl rfl)
            · exact hinitR hc1 hc2 _ (Or.inr rfl))
        hd
    intro pt v w' he
    rw [htr] at he
    rcases List.mem_append.1 he with h0 | h0
    · exact hall pt v w' h0
    · simp only [List.mem_singleton, Event.reach.injEq] at h0
      obtain ⟨rfl, rfl, rfl⟩ := h0
      exact hend m' hinv hge

end PointInvariants

end Arbores

namespace Arbores

/-- The entry in the slot below `iter` after lines 198-199 is the one
`segmentSampler` returned. -/
theorem segmentRecord_entry {P D B W F : Type} (x : Externals P D B W F) (bp : B) (data : D)
    (parm : Parameters F) (i : Int) (m : Machine P F W) :
    (segmentRecord x bp data parm i m).vars.chain ((segmentRecord x bp data parm i m).vars.iter - 1)
      = (x.segmentSampler m.world m.vars.path i bp data parm).2 := by
  rw [segmentRecord_vars]
  have h : m.vars.iter + 1 - 1 = m.vars.iter := by omega
  show Function.update _ _ _ (m.vars.iter + 1 - 1) = _
  rw [h, Function.update_same]

/-- C2 (as amended). Invariant preservation: the initial entry is written only
after both assertions on its path have passed (if one fails the run aborts and
nothing is recorded); for an entry `chain[iter]` assigned from `segmentSampler`,
`main` makes no check of its own, so its path satisfies
`checkTreePathCompletely(path) == 1` and `checkCompatibility(path, data) == 1`
when it is written provided `segmentSampler` only returns such paths. -/
theorem main_committed_paths {P D B W F : Type} [IntCast F] [Add F] (x : Externals P D B W F)
    (w : W) (chain0 : Chain P F) (argv : List String) (fuel : Nat) (r : Result P F W)
    (hs : ∀ (w' : W) (p : P) (i : Int),
      x.checkTreePathCompletely (x.segmentSampler w' p i (mainBp x w argv) (mainData x w argv)
        (readParameters x argv)).2.path = 1
      ∧ x.checkCompatibility (x.segmentSampler w' p i (mainBp x w argv) (mainData x w argv)
        (readParameters x argv)).2.path (mainData x w argv) = 1)
    (h : main x w chain0 argv fuel = some r) :
    (∀ v w', Event.reach Point.initialRecorded v w' ∈ r.trace →
      v.iter = 1 ∧ x.checkTreePathCompletely (v.chain 0).path = 1
      ∧ x.checkCompatibility (v.chain 0).path (mainData x w argv) = 1)
    ∧ (∀ i v w', Event.reach (Point.segmentRecorded i) v w' ∈ r.trace →
      x.checkTreePathCompletely (v.chain (v.iter - 1)).path = 1
      ∧ x.checkCompatibility (v.chain (v.iter - 1)).path (mainData x w argv) = 1)
    ∧ (6 ≤ argv.length →
        ¬ (x.checkTreePathCompletely (mainPath x w argv) = 1
            ∧ x.checkCompatibility (mainPath x w argv) (mainData x w argv) = 1) →
        r.exit = Exit.aborted ∧ points r.trace = []) := by
  have key : ∀ pt v w', Event.reach pt v w' ∈ r.trace →
      match pt with
      | Point.initialRecorded =>
        v.iter = 1 ∧ x.checkTreePathCompletely (v.chain 0).path = 1
        ∧ x.checkCompatibility (v.chain 0).path (mainData x w argv) = 1
      | Point.segmentRecorded _ =>
        x.checkTreePathCompletely (v.chain (v.iter - 1)).path = 1
        ∧ x.checkCompatibility (v.chain (v.iter - 1)).path (mainData x w argv) = 1
      | _ => True := by
    refine main_points_invariant x w chain0 argv fuel r
      (fun pt v _ =>
        match pt with
        | Point.initialRecorded =>
          v.iter = 1 ∧ x.checkTreePathCompletely (v.chain 0).path = 1
          ∧ x.checkCompatibility (v.chain 0).path (mainData x w argv) = 1
        | Point.segmentRecorded _ =>
          x.checkTreePathCompletely (v.chain (v.iter - 1)).path = 1
          ∧ x.checkCompatibility (v.chain (v.iter - 1)).path (mainData x w argv) = 1
        | _ => True)
      (fun _ => True) (fun _ => True) trivial ?_ ?_ ?_ (fun _ _ _ => trivial)
      (fun _ _ _ => trivial) h
    · intro hc1 hc2 pt hpt
      rcases hpt with rfl | rfl
      · refine ⟨rfl, ?_⟩
        rw [driverInit_chain_zero]
        exact ⟨hc1, hc2⟩
      · trivial
    · intro m _
      exact ⟨trivial, trivial, trivial⟩
    · intro i m _ _
      refine ⟨trivial, ?_⟩
      refine segmentStep_holds x (mainBp x w argv) (mainData x w argv) (readParameters x argv)
        _ i m (fun pt v w' he => Or.inl he) (Or.inr trivial) (Or.inr ?_) ?_
        (fun _ => Or.inr trivial) (Or.inr trivial)
      · show _ ∧ _
        rw [segmentRecord_entry]
        exact hs _ _ _
      · intro _ pt hpt
        rcases hpt with rfl | rfl | rfl <;> exact Or.inr trivial
  refine ⟨fun v w' he => key _ v w' he, fun i v w' he => key _ v w' he, ?_⟩
  intro hargc hbad
  rcases main_cases x w chain0 argv fuel r h with
    ⟨hlt, _⟩ | ⟨_, hr, _⟩ | ⟨_, _, hc1, hc2, _⟩ | ⟨_, hc1, hc2, _⟩
  · omega
  · rw [hr]; exact ⟨rfl, points_setupTrace x argv⟩
  · exact absurd ⟨hc1, hc2⟩ hbad
  · exact absurd ⟨hc1, hc2⟩ hbad

/-- A run in which every path `segmentSampler` returns passes both checks. -/
theorem main_committed_paths_witness :
    ∃ r : Result Nat Int Nat, main (demo 2 0) 0 junk argv7 16 = some r
      ∧ (∀ i v w', Event.reach (Point.segmentRecorded i) v w' ∈ r.trace →
          (demo 2 0).checkTreePathCompletely (v.chain (v.iter - 1)).path = 1
          ∧ (demo 2 0).checkCompatibility (v.chain (v.iter - 1)).path
              (mainData (demo 2 0) 0 argv7) = 1) := by
  have e : ((main (demo 2 0) 0 junk argv7 16).map fun _ => ()) = some () := by decide
  cases hm : main (demo 2 0) 0 junk argv7 16 with
  | none => rw [hm] at e; simp at e
  | some r =>
    exact ⟨r, rfl, (main_committed_paths (demo 2 0) 0 junk argv7 16 r
      (fun w' _ _ => ⟨by simp [demo], rfl⟩) hm).2.1⟩

/-- C2 as stated fails: when `segmentSampler` returns a path that fails
`checkTreePathCompletely` (here the path `54`, returned by the third call), the
run does not stop; the entry is recorded and the run returns normally. -/
theorem unchecked_segment_path_counterexample :
    ¬ (∀ (r : Result Nat Int Nat), main (demo 2 54) 0 junk argv7 16 = some r →
        ∀ i v w', Event.reach (Point.segmentRecorded i) v w' ∈ r.trace →
          (demo 2 54).checkTreePathCompletely (v.chain (v.iter - 1)).path = 1) := by
  intro hall
  have e : ((main (demo 2 54) 0 junk argv7 16).map fun r =>
      (r.exit, (varsAt (Point.segmentRecorded 0) r.trace).map fun v =>
        (demo 2 54).checkTreePathCompletely (v.chain (v.iter - 1)).path))
      = some (Exit.returned 0, [1, 0, 1, 1, 1]) := by decide
  cases hm : main (demo 2 54) 0 junk argv7 16 with
  | none => rw [hm] at e; simp at e
  | some r =>
    rw [hm] at e
    simp only [Option.map_some', Option.some.injEq, Prod.mk.injEq] at e
    have h0 : (0 : Int) ∈ (varsAt (Point.segmentRecorded 0) r.trace).map fun v =>
        (demo 2 54).checkTreePathCompletely (v.chain (v.iter - 1)).path := by
      rw [e.2]; simp
    obtain ⟨v, hv, hv0⟩ := List.mem_map.1 h0
    obtain ⟨w', hw'⟩ := (mem_varsAt _ v r.trace).1 hv
    have := hall r hm 0 v w' hw'
    rw [hv0] at this
    exact absurd this (by decide)

end Arbores

namespace Arbores

section FullScan

variable {P D B W F : Type} (x : Externals P D B W F) (N : Int) (bp : B) (data : D)
  (parm : Parameters F)

/-- After the body of the `for` loop the entry just written carries the flag of
its branch: 1 for the last segment index, 0 for any other. -/
theorem segmentStep_flag (i : Int) (m : Machine P F W) :
    ((segmentStep x bp data parm i m).vars.chain
        ((segmentStep x bp data parm i m).vars.iter - 1)).full_scan
      = if i = x.length bp - 1 then 1 else 0 := by
  unfold segmentStep
  by_cases h : i = x.length bp - 1
  · simp only [h, if_true, emit_vars, sweepCompleted_vars]
    exact setFullScan_same _ _ _
  · simp only [h, if_false, emit_vars, sweepOpen_vars]
    exact setFullScan_same _ _ _

/-- The `for` loop when fewer slots are left than segments: it breaks with
`iter = N` before the last segment index, so the entry written last is flagged
0 and no sweep is counted. -/
theorem segmentLoop_short :
    ∀ (n : Nat) (i : Int) (m : Machine P F W), m.vars.iter < N →
      (N - m.vars.iter).toNat < n → i + n = x.length bp →
      (segmentLoop x N bp data parm n i m).vars.iter = N
      ∧ ((segmentLoop x N bp data parm n i m).vars.chain
          ((segmentLoop x N bp data parm n i m).vars.iter - 1)).full_scan = 0
      ∧ (segmentLoop x N bp data parm n i m).vars.full_scan_count = m.vars.full_scan_count := by
  intro n
  induction n with
  | zero => intro i m _ h; exact absurd h (Nat.not_lt_zero _)
  | succ n ih =>
    intro i m hlt hn hi
    have hne : i ≠ x.length bp - 1 := by
      intro heq
      have : (n : Int) = 0 := by push_cast at hi; omega
      omega
    have hit := segmentStep_iter x bp data parm i m
    have hfl := segmentStep_flag x bp data parm i m
    have hfs := segmentStep_full_scan_count x bp data parm i m
    rw [if_neg hne] at hfl hfs
    unfold segmentLoop
    by_cases hge : (segmentStep x bp data parm i m).vars.iter ≥ N
    · simp only [hge, if_true]
      exact ⟨by omega, hfl, hfs⟩
    · simp only [hge, if_false]
      obtain ⟨h1, h2, h3⟩ := ih (i + 1) (segmentStep x bp data parm i m) (lt_of_not_ge hge)
        (by omega) (by push_cast at hi; omega)
      exact ⟨h1, h2, h3.trans hfs⟩

/-- The `while (true)` loop when `N` is smaller than the number of segments:
one round is enough. -/
theorem mainLoop_short (hNL : N < x.length bp)
    (hj : ∀ (w : W) (c : Chain P F) (it : Int),
      it ≤ (x.jittering w c it N parm data).2.2
      ∧ (∀ k, k < it → (x.jittering w c it N parm data).2.1 k = c k)
      ∧ (∀ k, it ≤ k → k < (x.jittering w c it N parm data).2.2 →
          ((x.jittering w c it N parm data).2.1 k).full_scan = 0))
    (fuel : Nat) (m : Machine P F W) (h1 : 1 ≤ m.vars.iter)
    (h0 : (m.vars.chain (m.vars.iter - 1)).full_scan = 0) :
    ∃ m', mainLoop x N bp data parm (fuel + 1) m = some m' ∧ N ≤ m'.vars.iter
      ∧ (m'.vars.chain (m'.vars.iter - 1)).full_scan = 0
      ∧ m'.vars.full_scan_count = m.vars.full_scan_count := by
  obtain ⟨hj1, hj2, hj3⟩ := hj m.world m.vars.chain m.vars.iter
  rw [← jitterStep_chain x N data parm m] at hj2 hj3
  rw [← jitterStep_iter x N data parm m] at hj1 hj3
  have hflag : ((jitterStep x N data parm m).vars.chain
      ((jitterStep x N data parm m).vars.iter - 1)).full_scan = 0 := by
    by_cases heq : (jitterStep x N data parm m).vars.iter = m.vars.iter
    · rw [heq, hj2 _ (by omega)]; exact h0
    · exact hj3 _ (by omega) (by omega)
  unfold mainLoop
  by_cases hge : (jitterStep x N data parm m).vars.iter ≥ N
  · simp only [hge, if_true]
    exact ⟨_, rfl, hge, hflag, rfl⟩
  · simp only [hge, if_false]
    obtain ⟨s1, s2, s3⟩ := segmentLoop_short x N bp data parm (x.length bp).toNat 0
      (jitterStep x N data parm m) (lt_of_not_ge hge) (by omega) (by omega)
    have hge2 : (segmentLoop x N bp data parm (x.length bp).toNat 0
        (jitterStep x N data parm m)).vars.iter ≥ N := by rw [s1]
    simp only [hge2, if_true]
    exact ⟨_, rfl, hge2, s2, s3⟩

end FullScan

end Arbores

namespace Arbores

section Aggregation

variable {P D B W F : Type} (x : Externals P D B W F) (N : Int) (bp : B) (data : D)
  (parm : Parameters F)

/-- A run of `main` either never gets to the driver (its trace then has no
program point), or it is a run of the driver loop, for which a loop invariant
holds at the `break`. -/
theorem main_driver_invariant [IntCast F] [Add F] (w : W) (chain0 : Chain P F)
    (argv : List String) (fuel : Nat) (r : Result P F W)
    (Pre Inv : Machine P F W → Prop)
    (hinit : Pre (driverInit x (mainN x argv) (mainData x w argv) (readParameters x argv)
      (mainPath x w argv) (mainInitialisation x w argv).1 chain0 (setupTrace x argv)))
    (hj : ∀ m, Pre m →
      Inv (jitterStep x (mainN x argv) (mainData x w argv) (readParameters x argv) m))
    (hs : ∀ i m, Inv m → m.vars.iter < mainN x argv →
      Inv (segmentStep x (mainBp x w argv) (mainData x w argv) (readParameters x argv) i m))
    (hback : ∀ m, Inv m → m.vars.iter < mainN x argv → Pre m)
    (h : main x w chain0 argv fuel = some r) :
    (r.final = none ∧ ∀ pt v w', Event.reach pt v w' ∉ r.trace)
    ∨ ∃ m' : Machine P F W, Inv m' ∧ mainN x argv ≤ m'.vars.iter
        ∧ r.trace = m'.trace ++ [Event.reach Point.deallocateChain m'.vars m'.world]
        ∧ r.final = some m'.vars ∧ r.exit = Exit.returned 0 := by
  rcases main_cases x w chain0 argv fuel r h with ⟨_, hr⟩ | ⟨_, hr, _⟩ | ⟨_, hr, _⟩ | ⟨_, _, _, hd⟩
  · left; rw [hr]; exact ⟨rfl, fun pt v w' he => by simp at he⟩
  · left; rw [hr]; exact ⟨rfl, fun pt v w' => setupTrace_no_points x argv pt v w'⟩
  · left; rw [hr]; exact ⟨rfl, fun pt v w' => faultTrace_no_points x argv _ pt v w'⟩
  · right
    exact driver_invariant x _ _ _ _ Pre Inv hj hs hback _ _ chain0 _ fuel r hinit hd

theorem varsAt_eq_nil_of_no_points (pt : Point) (t : List (Event P F W))
    (h : ∀ q v w', Event.reach q v w' ∉ t) : varsAt pt t = [] := by
  apply List.eq_nil_iff_forall_not_mem.2
  intro v hv
  obtain ⟨w', hw'⟩ := (mem_varsAt pt v t).1 hv
  exact h pt v w' hw'

/-- After the body of the `for` loop `path` is the path of the entry just
written. -/
theorem segmentStep_path (i : Int) (m : Machine P F W) :
    (segmentStep x bp data parm i m).vars.path
      = ((segmentStep x bp data parm i m).vars.chain
          ((segmentStep x bp data parm i m).vars.iter - 1)).path := by
  have he := segmentRecord_entry x bp data parm i m
  have hp : (segmentRecord x bp data parm i m).vars.path
      = (x.segmentSampler m.world m.vars.path i bp data parm).2.path := by
    rw [segmentRecord_vars]
  unfold segmentStep
  by_cases h : i = x.length bp - 1
  · simp only [h, if_true, emit_vars, sweepCompleted_vars]
    rw [setFullScan_path, ← h, he, hp]
  · simp only [h, if_false, emit_vars, sweepOpen_vars]
    rw [setFullScan_path, he, hp]

theorem segmentStep_vars_last (i : Int) (m : Machine P F W) (h : i = x.length bp - 1) :
    (segmentStep x bp data parm i m).vars
      = (segmentRecord x bp data parm i m).vars.flagged.counted := by
  unfold segmentStep
  simp only [h, if_true, emit_vars, sweepCompleted_vars]
  rfl

/-- The aggregation calls of a segment step that closes a sweep. -/
theorem varsAt_segmentStep_last (i : Int) (m : Machine P F W) (h : i = x.length bp - 1) :
    varsAt (Point.segmentRecorded (x.length bp - 1)) (segmentStep x bp data parm i m).trace
        = varsAt (Point.segmentRecorded (x.length bp - 1)) m.trace
          ++ [(segmentRecord x bp data parm i m).vars]
    ∧ varsAt Point.timesToMRCA (segmentStep x bp data parm i m).trace
        = varsAt Point.timesToMRCA m.trace ++ [(segmentRecord x bp data parm i m).vars.flagged]
    ∧ varsAt Point.mapCall (segmentStep x bp data parm i m).trace
        = varsAt Point.mapCall m.trace
          ++ [(segmentRecord x bp data parm i m).vars.flagged.counted] := by
  rw [segmentStep_trace_last x bp data parm i m h, segmentStep_vars_last x bp data parm i m h]
  simp only [varsAt_append]
  subst h
  refine ⟨?_, ?_, ?_⟩
  all_goals (simp; try rfl)

/-- A segment step inside a sweep makes no aggregation call. -/
theorem varsAt_segmentStep_inner (i : Int) (m : Machine P F W) (h : i ≠ x.length bp - 1) :
    varsAt (Point.segmentRecorded (x.length bp - 1)) (segmentStep x bp data parm i m).trace
        = varsAt (Point.segmentRecorded (x.length bp - 1)) m.trace
    ∧ varsAt Point.timesToMRCA (segmentStep x bp data parm i m).trace
        = varsAt Point.timesToMRCA m.trace
    ∧ varsAt Point.mapCall (segmentStep x bp data parm i m).trace
        = varsAt Point.mapCall m.trace := by
  rw [segmentStep_trace_inner x bp data parm i m h]
  simp only [varsAt_append]
  refine ⟨?_, ?_, ?_⟩ <;> simp [h]

end Aggregation

end Arbores

namespace Arbores

/-- C8. Sweep aggregation: along a run of `main`, `timesToMRCA` is called
exactly once for every entry recorded from `segmentSampler` with the last
segment index `bp.length - 1`, on the state in which that entry has just been
flagged `full_scan = 1`; `map` is called exactly once after each such call, on
the same `chain`, `iter` and `path` with `full_scan_count` raised by one, and
at no other point.  The `k`-th call of `map` receives `full_scan_count = k`, the
final `full_scan_count` is the number of calls, and at every call of `map` and
of `timesToMRCA` the entry `chain[iter - 1]` has `full_scan = 1` and `path` is
its path.  Nothing here depends on whether `iter` has reached `N`. -/
theorem main_sweep_aggregation {P D B W F : Type} [IntCast F] [Add F]
    (x : Externals P D B W F) (w : W) (chain0 : Chain P F) (argv : List String) (fuel : Nat)
    (r : Result P F W) (h : main x w chain0 argv fuel = some r) :
    varsAt Point.timesToMRCA r.trace
        = (varsAt (Point.segmentRecorded (x.length (mainBp x w argv) - 1)) r.trace).map
            Vars.flagged
    ∧ varsAt Point.mapCall r.trace = (varsAt Point.timesToMRCA r.trace).map Vars.counted
    ∧ (varsAt Point.mapCall r.trace).map (fun v => v.full_scan_count)
        = (List.range' 1 (varsAt Point.mapCall r.trace).length).map (fun k : Nat => (k : Int))
    ∧ (∀ vf, r.final = some vf →
        vf.full_scan_count = ((varsAt Point.mapCall r.trace).length : Int))
    ∧ (∀ v w', Event.reach Point.mapCall v w' ∈ r.trace →
        (v.chain (v.iter - 1)).full_scan = 1 ∧ v.path = (v.chain (v.iter - 1)).path)
    ∧ (∀ v w', Event.reach Point.timesToMRCA v w' ∈ r.trace →
        (v.chain (v.iter - 1)).full_scan = 1 ∧ v.path = (v.chain (v.iter - 1)).path) := by
  have hlists : varsAt Point.timesToMRCA r.trace
        = (varsAt (Point.segmentRecorded (x.length (mainBp x w argv) - 1)) r.trace).map
            Vars.flagged
      ∧ varsAt Point.mapCall r.trace = (varsAt Point.timesToMRCA r.trace).map Vars.counted
      ∧ (varsAt Point.mapCall r.trace).map (fun v => v.full_scan_count)
          = (List.range' 1 (varsAt Point.mapCall r.trace).length).map (fun k : Nat => (k : Int))
      ∧ (∀ vf, r.final = some vf →
          vf.full_scan_count = ((varsAt Point.mapCall r.trace).length : Int)) := by
    refine (main_driver_invariant x w chain0 argv fuel r
      (fun m => varsAt Point.timesToMRCA m.trace
            = (varsAt (Point.segmentRecorded (x.length (mainBp x w argv) - 1)) m.trace).map
                Vars.flagged
        ∧ varsAt Point.mapCall m.trace = (varsAt Point.timesToMRCA m.trace).map Vars.counted
        ∧ (varsAt Point.mapCall m.trace).map (fun v => v.full_scan_count)
            = (List.range' 1 (varsAt Point.mapCall m.trace).length).map (fun k : Nat => (k : Int))
        ∧ m.vars.full_scan_count = ((varsAt Point.mapCall m.trace).length : Int))
      (fun m => varsAt Point.timesToMRCA m.trace
            = (varsAt (Point.segmentRecorded (x.length (mainBp x w argv) - 1)) m.trace).map
                Vars.flagged
        ∧ varsAt Point.mapCall m.trace = (varsAt Point.timesToMRCA m.trace).map Vars.counted
        ∧ (varsAt Point.mapCall m.trace).map (fun v => v.full_scan_count)
            = (List.range' 1 (varsAt Point.mapCall m.trace).length).map (fun k : Nat => (k : Int))
        ∧ m.vars.full_scan_count = ((varsAt Point.mapCall m.trace).length : Int))
      ?_ ?_ ?_ (fun m hm _ => hm) h).elim ?_ ?_
    · show varsAt _ (driverInit _ _ _ _ _ _ _ _).trace = _ ∧
        varsAt _ (driverInit _ _ _ _ _ _ _ _).trace = _ ∧ _ ∧ _
      rw [driverInit_trace]
      simp only [varsAt_append, varsAt_setupTrace]
      simp [varsAt]
      rfl
    · intro m hm
      show varsAt _ (jitterStep _ _ _ _ m).trace = _ ∧ varsAt _ (jitterStep _ _ _ _ m).trace = _
        ∧ (varsAt _ (jitterStep _ _ _ _ m).trace).map _ = _ ∧ _
      rw [varsAt_jitterStep x _ _ _ _ m (fun hp => Point.noConfusion hp)
          (fun hp => Point.noConfusion hp),
        varsAt_jitterStep x _ _ _ _ m (fun hp => Point.noConfusion hp)
          (fun hp => Point.noConfusion hp),
        varsAt_jitterStep x _ _ _ _ m (fun hp => Point.noConfusion hp)
          (fun hp => Point.noConfusion hp), jitterStep_full_scan_count]
      exact hm
    · intro i m hm _
      obtain ⟨ha, hb, hc, hd⟩ := hm
      show varsAt _ (segmentStep _ _ _ _ i m).trace = _
        ∧ varsAt _ (segmentStep _ _ _ _ i m).trace = _
        ∧ (varsAt _ (segmentStep _ _ _ _ i m).trace).map _ = _ ∧ _
      by_cases hi : i = x.length (mainBp x w argv) - 1
      · obtain ⟨e1, e2, e3⟩ := varsAt_segmentStep_last x (mainBp x w argv) (mainData x w argv)
          (readParameters x argv) i m hi
        rw [e1, e2, e3, segmentStep_full_scan_count, if_pos hi]
        refine ⟨by rw [ha, List.map_append]; rfl, by rw [hb, List.map_append]; rfl, ?_, ?_⟩
        · rw [List.map_append, hc, List.length_append, List.length_singleton,
            List.range'_1_concat, List.map_append]
          congr 1
          simp only [List.map_cons, List.map_nil, List.cons.injEq, and_true]
          have hfs : (segmentRecord x (mainBp x w argv) (mainData x w argv)
              (readParameters x argv) i m).vars.flagged.counted.full_scan_count
              = m.vars.full_scan_count + 1 := rfl
          rw [hfs, hd]; push_cast; omega
        · rw [List.length_append, List.length_singleton, hd]; push_cast; rfl
      · obtain ⟨e1, e2, e3⟩ := varsAt_segmentStep_inner x (mainBp x w argv) (mainData x w argv)
          (readParameters x argv) i m hi
        rw [e1, e2, e3, segmentStep_full_scan_count, if_neg hi]
        exact ⟨ha, hb, hc, hd⟩
    · rintro ⟨hfin, hno⟩
      have e := fun pt => varsAt_eq_nil_of_no_points pt r.trace hno
      simp only [e, List.map_nil, List.length_nil]
      refine ⟨trivial, trivial, rfl, ?_⟩
      intro vf hvf; rw [hfin] at hvf; cases hvf
    · rintro ⟨m', ⟨ha, hb, hc, hd⟩, _, htr, hfin, _⟩
      have e : ∀ pt, pt ≠ Point.deallocateChain → varsAt pt r.trace = varsAt pt m'.trace := by
        intro pt hpt
        rw [htr, varsAt_append]
        simp [Ne.symm hpt]
      rw [e _ (fun hp => Point.noConfusion hp), e _ (fun hp => Point.noConfusion hp),
        e _ (fun hp => Point.noConfusion hp)]
      refine ⟨ha, hb, hc, fun vf hvf => ?_⟩
      rw [hfin] at hvf
      cases hvf
      exact hd
  have key : ∀ pt v w', Event.reach pt v w' ∈ r.trace →
      match pt with
      | Point.mapCall =>
        (v.chain (v.iter - 1)).full_scan = 1 ∧ v.path = (v.chain (v.iter - 1)).path
      | Point.timesToMRCA =>
        (v.chain (v.iter - 1)).full_scan = 1 ∧ v.path = (v.chain (v.iter - 1)).path
      | _ => True := by
    refine main_points_invariant x w chain0 argv fuel r
      (fun pt v _ =>
        match pt with
        | Point.mapCall =>
          (v.chain (v.iter - 1)).full_scan = 1 ∧ v.path = (v.chain (v.iter - 1)).path
        | Point.timesToMRCA =>
          (v.chain (v.iter - 1)).full_scan = 1 ∧ v.path = (v.chain (v.iter - 1)).path
        | _ => True)
      (fun _ => True) (fun _ => True) trivial ?_ ?_ ?_ (fun _ _ _ => trivial)
      (fun _ _ _ => trivial) h
    · intro _ _ pt hpt
      rcases hpt with rfl | rfl <;> trivial
    · intro m _
      exact ⟨trivial, trivial, trivial⟩
    · intro i m _ _
      refine ⟨trivial, ?_⟩
      refine segmentStep_holds x (mainBp x w argv) (mainData x w argv) (readParameters x argv)
        _ i m (fun pt v w' he => Or.inl he) (Or.inr trivial) (Or.inr trivial) ?_ ?_
        (Or.inr trivial)
      · intro _ pt hpt
        rcases hpt with rfl | rfl | rfl
        · right
          show (setFullScan _ _ _ _).full_scan = 1 ∧ _ = (setFullScan _ _ _ _).path
          refine ⟨setFullScan_same _ _ _, ?_⟩
          rw [setFullScan_path, segmentRecord_entry, segmentRecord_vars]
        · exact Or.inr trivial
        · exact Or.inr trivial
      · intro hi
        right
        have hf := segmentStep_flag x (mainBp x w argv) (mainData x w argv)
          (readParameters x argv) i m
        rw [if_pos hi] at hf
        exact ⟨hf, segmentStep_path x _ _ _ i m⟩
  exact ⟨hlists.1, hlists.2.1, hlists.2.2.1, hlists.2.2.2,
    fun v w' he => key _ v w' he, fun v w' he => key _ v w' he⟩

/-- A run with `N = 5` and two segments: the second sweep is closed by the
call that makes `iter` reach `N`, and `map` is still called for it, with
`full_scan_count = 2` and `iter = 5`. -/
theorem main_sweep_aggregation_witness :
    ∃ r : Result Nat Int Nat, main (demo 2 99) 0 junk argvFive 16 = some r
      ∧ (varsAt Point.mapCall r.trace).map (fun v => (v.full_scan_count, v.iter))
          = [(1, 3), (2, 5)]
      ∧ varsAt Point.mapCall r.trace = (varsAt Point.timesToMRCA r.trace).map Vars.counted := by
  have e : ((main (demo 2 99) 0 junk argvFive 16).map fun r =>
      (varsAt Point.mapCall r.trace).map (fun v => (v.full_scan_count, v.iter)))
      = some [(1, 3), (2, 5)] := by decide
  cases hm : main (demo 2 99) 0 junk argvFive 16 with
  | none => rw [hm] at e; simp at e
  | some r =>
    rw [hm] at e
    exact ⟨r, rfl, Option.some.inj e,
      (main_sweep_aggregation (demo 2 99) 0 junk argvFive 16 r hm).2.1⟩

end Arbores

namespace Arbores

section Schedule

variable {P D B W F : Type} (x : Externals P D B W F) (N : Int) (bp : B) (data : D)
  (parm : Parameters F)

theorem kernelCalls_append (a b : List (Event P F W)) :
    kernelCalls (a ++ b) = kernelCalls a ++ kernelCalls b := by
  simp [kernelCalls, points_append]

theorem kernelCalls_jitterStep (m : Machine P F W) :
    kernelCalls (jitterStep x N data parm m).trace
      = kernelCalls m.trace ++ [Point.jitteringCall] := by
  rw [jitterStep_trace, kernelCalls_append]
  simp [kernelCalls, Point.isKernelCall]

theorem kernelCalls_segmentStep (i : Int) (m : Machine P F W) :
    kernelCalls (segmentStep x bp data parm i m).trace
      = kernelCalls m.trace ++ [Point.segmentSamplerCall i] := by
  by_cases hi : i = x.length bp - 1
  · rw [segmentStep_trace_last x bp data parm i m hi, kernelCalls_append]
    simp [kernelCalls, Point.isKernelCall]
  · rw [segmentStep_trace_inner x bp data parm i m hi, kernelCalls_append]
    simp [kernelCalls, Point.isKernelCall]

/-- The `for` loop calls `segmentSampler` for the indices `j, j + 1, ...` in
order, and stops early only with `iter >= N`. -/
theorem segmentLoop_calls :
    ∀ (n j : Nat) (m : Machine P F W),
      ∃ c, c ≤ n
        ∧ kernelCalls (segmentLoop x N bp data parm n (j : Int) m).trace
            = kernelCalls m.trace
              ++ (List.range' j c).map (fun k : Nat => Point.segmentSamplerCall (k : Int))
        ∧ (c = n ∨ N ≤ (segmentLoop x N bp data parm n (j : Int) m).vars.iter) := by
  intro n
  induction n with
  | zero => intro j m; exact ⟨0, le_refl 0, by simp [segmentLoop], Or.inl rfl⟩
  | succ n ih =>
    intro j m
    unfold segmentLoop
    by_cases hge : (segmentStep x bp data parm (j : Int) m).vars.iter ≥ N
    · rw [if_pos hge]
      exact ⟨1, by omega, by rw [kernelCalls_segmentStep]; rfl, Or.inr hge⟩
    · rw [if_neg hge]
      obtain ⟨c, hc, hcalls, hor⟩ := ih (j + 1) (segmentStep x bp data parm (j : Int) m)
      have hcast : ((j : Int) + 1) = ((j + 1 : Nat) : Int) := by push_cast; rfl
      rw [hcast]
      refine ⟨c + 1, by omega, ?_, ?_⟩
      · rw [hcalls, kernelCalls_segmentStep, List.range'_succ, List.map_cons,
          List.append_assoc]
        rfl
      · rcases hor with h1 | h1
        · exact Or.inl (by omega)
        · exact Or.inr h1

theorem schedule_succ (len : Int) (k : Nat) :
    schedule len (k + 1) = schedule len k ++ sweepCalls len := by
  unfold schedule
  rw [List.replicate_succ', List.flatten_append]
  simp

/-- The kernel calls of the `while (true)` loop, entered at the start of a
sweep, continue the repeating pattern. -/
theorem mainLoop_calls :
    ∀ (fuel : Nat) (m m' : Machine P F W) (k : Nat),
      kernelCalls m.trace = schedule (x.length bp) k →
      mainLoop x N bp data parm fuel m = some m' →
      ∃ k', kernelCalls m'.trace <+: schedule (x.length bp) k' := by
  intro fuel
  induction fuel with
  | zero => intro m m' k _ h; simp [mainLoop] at h
  | succ fuel ih =>
    intro m m' k hk h
    unfold mainLoop at h
    have hj := kernelCalls_jitterStep x N data parm m
    by_cases hge : (jitterStep x N data parm m).vars.iter ≥ N
    · simp only [hge, if_true, Option.some.injEq] at h
      subst h
      refine ⟨k + 1, ?_⟩
      rw [hj, hk, schedule_succ]
      exact (List.prefix_append_right_inj _).2 ⟨_, rfl⟩
    · simp only [hge, if_false] at h
      obtain ⟨c, hc, hcalls, hor⟩ := segmentLoop_calls x N bp data parm (x.length bp).toNat 0
        (jitterStep x N data parm m)
      simp only [Nat.cast_zero] at hcalls hor
      have hfull : c = (x.length bp).toNat →
          kernelCalls (segmentLoop x N bp data parm (x.length bp).toNat 0
            (jitterStep x N data parm m)).trace = schedule (x.length bp) (k + 1) := by
        intro hceq
        rw [hcalls, hj, hk, schedule_succ, hceq, List.append_assoc]
        simp [sweepCalls, List.range_eq_range']
      by_cases hge2 : (segmentLoop x N bp data parm (x.length bp).toNat 0
          (jitterStep x N data parm m)).vars.iter ≥ N
      · simp only [hge2, if_true, Option.some.injEq] at h
        subst h
        refine ⟨k + 1, ?_⟩
        rw [hcalls, hj, hk, schedule_succ, List.append_assoc]
        refine (List.prefix_append_right_inj _).2 ?_
        simp only [List.singleton_append, sweepCalls]
        refine (List.prefix_cons_inj _).2 ?_
        rw [List.range_eq_range']
        obtain ⟨d, hd⟩ : ∃ d, (x.length bp).toNat = d + c := ⟨_, (Nat.sub_add_cancel hc).symm⟩
        rw [hd, ← List.range'_append_1, List.map_append]
        exact List.prefix_append _ _
      · simp only [hge2, if_false] at h
        have hceq : c = (x.length bp).toNat := by
          rcases hor with h1 | h1
          · exact h1
          · exact absurd h1 hge2
        exact ih _ m' (k + 1) (hfull hceq) h

end Schedule

end Arbores

namespace Arbores

section CallReturn

variable {P D B W F : Type} (x : Externals P D B W F) (N : Int) (bp : B) (data : D)
  (parm : Parameters F)

theorem chain'_of_forall_left {α : Type} (R : α → α → Prop) :
    ∀ t : List α, (∀ a ∈ t, ∀ b, R a b) → List.Chain' R t
  | [], _ => List.chain'_nil
  | [a], _ => List.chain'_singleton a
  | a :: b :: t, h =>
    List.chain'_cons.2 ⟨h a (List.mem_cons_self _ _) b,
      chain'_of_forall_left R (b :: t) fun c hc => h c (List.mem_cons_of_mem _ hc)⟩

theorem pairwise_of_forall_left {α : Type} (R : α → α → Prop) (t : List α)
    (h : ∀ a ∈ t, ∀ b, R a b) : List.Pairwise R t := by
  induction t with
  | nil => exact List.Pairwise.nil
  | cons a t ih =>
    exact List.pairwise_cons.2 ⟨fun b _ => h a (List.mem_cons_self _ _) b,
      ih fun c hc => h c (List.mem_cons_of_mem _ hc)⟩

/-- An event that is not a kernel call puts no constraint on what follows. -/
theorem returns_of_not_call (e e' : Event P F W)
    (h : ∀ v w, e ≠ Event.reach Point.jitteringCall v w)
    (h' : ∀ i v w, e ≠ Event.reach (Point.segmentSamplerCall i) v w) :
    Returns x N bp data parm e e' := by
  cases e with
  | reach pt v w =>
    cases pt with
    | jitteringCall => exact absurd rfl (h v w)
    | segmentSamplerCall i => exact absurd rfl (h' i v w)
    | _ => trivial
  | _ => trivial

/-- The jitter step keeps every kernel call directly followed by its return. -/
theorem returns_jitterStep (m : Machine P F W)
    (hc : List.Chain' (Returns x N bp data parm) m.trace)
    (hl : ∀ e ∈ m.trace.getLast?, ∀ e', Returns x N bp data parm e e') :
    List.Chain' (Returns x N bp data parm) (jitterStep x N data parm m).trace
    ∧ ∀ e ∈ (jitterStep x N data parm m).trace.getLast?, ∀ e', Returns x N bp data parm e e' := by
  rw [jitterStep_trace]
  constructor
  · refine List.chain'_append.2 ⟨hc, List.chain'_pair.2 rfl, fun a ha b _ => hl a ha b⟩
  · intro e he e'
    simp only [List.getLast?_append, List.getLast?_cons_cons, List.getLast?_singleton,
      Option.mem_def] at he
    have he' := Option.some.inj (show some _ = some e from he)
    subst he'
    trivial

/-- A segment step keeps every kernel call directly followed by its return. -/
theorem returns_segmentStep (i : Int) (m : Machine P F W)
    (hc : List.Chain' (Returns x N bp data parm) m.trace)
    (hl : ∀ e ∈ m.trace.getLast?, ∀ e', Returns x N bp data parm e e') :
    List.Chain' (Returns x N bp data parm) (segmentStep x bp data parm i m).trace
    ∧ ∀ e ∈ (segmentStep x bp data parm i m).trace.getLast?,
        ∀ e', Returns x N bp data parm e e' := by
  have hrec : Returns x N bp data parm (Event.reach (Point.segmentSamplerCall i) m.vars m.world)
      (Event.reach (Point.segmentRecorded i) (segmentRecord x bp data parm i m).vars
        (segmentRecord x bp data parm i m).world) := by
    show Event.reach _ _ _ = Event.reach _ _ _
    rw [segmentRecord_vars, segmentRecord_world]
  by_cases hi : i = x.length bp - 1
  · rw [segmentStep_trace_last x bp data parm i m hi]
    constructor
    · refine List.chain'_append.2 ⟨hc, ?_, fun a ha b _ => hl a ha b⟩
      simp only [List.chain'_cons, List.chain'_singleton, and_true]
      exact ⟨hrec, trivial, trivial, trivial, trivial, trivial⟩
    · intro e he e'
      simp only [List.getLast?_append, List.getLast?_cons_cons, List.getLast?_singleton,
        Option.mem_def] at he
      have he' := Option.some.inj (show some _ = some e from he)
      subst he'
      trivial
  · rw [segmentStep_trace_inner x bp data parm i m hi]
    constructor
    · refine List.chain'_append.2 ⟨hc, ?_, fun a ha b _ => hl a ha b⟩
      simp only [List.chain'_cons, List.chain'_singleton, and_true]
      exact ⟨hrec, trivial⟩
    · intro e he e'
      simp only [List.getLast?_append, List.getLast?_cons_cons, List.getLast?_singleton,
        Option.mem_def] at he
      have he' := Option.some.inj (show some _ = some e from he)
      subst he'
      trivial

/-- Appending events to a trace in which every kernel return left `iter < N`
keeps the stopping relation, when the appended events satisfy it among
themselves. -/
theorem stopsAt_append (t b : List (Event P F W))
    (ht : List.Pairwise (StopsAt N) t)
    (hall : ∀ pt v w, Event.reach pt v w ∈ t → pt.isKernelReturn = true → v.iter < N)
    (hb : List.Pairwise (StopsAt N) b) :
    List.Pairwise (StopsAt N) (t ++ b) := by
  refine List.pairwise_append.2 ⟨ht, hb, fun a ha c _ => ?_⟩
  cases a with
  | reach p v w =>
    cases c with
    | reach q v' w' => exact fun hp _ => hall p v w ha hp
    | _ => trivial
  | _ => trivial

theorem stopsAt_jitterStep (m : Machine P F W)
    (ht : List.Pairwise (StopsAt N) m.trace)
    (hall : ∀ pt v w, Event.reach pt v w ∈ m.trace → pt.isKernelReturn = true → v.iter < N) :
    List.Pairwise (StopsAt N) (jitterStep x N data parm m).trace
    ∧ ((jitterStep x N data parm m).vars.iter < N →
        ∀ pt v w, Event.reach pt v w ∈ (jitterStep x N data parm m).trace →
          pt.isKernelReturn = true → v.iter < N) := by
  constructor
  · rw [jitterStep_trace]
    refine stopsAt_append N _ _ ht hall ?_
    simp [StopsAt, Point.isKernelReturn, Point.isKernelCall]
  · intro hlt
    refine jitterStep_holds x N data parm (fun pt v _ => pt.isKernelReturn = true → v.iter < N)
      m hall (fun hp => by cases hp) (fun _ => hlt)

theorem stopsAt_segmentStep (i : Int) (m : Machine P F W)
    (ht : List.Pairwise (StopsAt N) m.trace)
    (hall : ∀ pt v w, Event.reach pt v w ∈ m.trace → pt.isKernelReturn = true → v.iter < N) :
    List.Pairwise (StopsAt N) (segmentStep x bp data parm i m).trace
    ∧ ((segmentStep x bp data parm i m).vars.iter < N →
        ∀ pt v w, Event.reach pt v w ∈ (segmentStep x bp data parm i m).trace →
          pt.isKernelReturn = true → v.iter < N) := by
  constructor
  · by_cases hi : i = x.length bp - 1
    · rw [segmentStep_trace_last x bp data parm i m hi]
      refine stopsAt_append N _ _ ht hall ?_
      simp [StopsAt, Point.isKernelReturn, Point.isKernelCall]
    · rw [segmentStep_trace_inner x bp data parm i m hi]
      refine stopsAt_append N _ _ ht hall ?_
      simp [StopsAt, Point.isKernelReturn, Point.isKernelCall]
  · intro hlt
    rw [segmentStep_iter] at hlt
    refine segmentStep_holds x bp data parm
      (fun pt v _ => pt.isKernelReturn = true → v.iter < N) i m hall
      (fun hp => by cases hp) (fun _ => by rw [segmentRecord_iter]; exact hlt) ?_
      (fun _ hp => by cases hp) (fun hp => by cases hp)
    intro _ pt hpt
    rcases hpt with rfl | rfl | rfl <;> exact fun hp => by cases hp

end CallReturn

end Arbores

namespace Arbores

section ScheduleMain

variable {P D B W F : Type} (x : Externals P D B W F) (N : Int) (bp : B) (data : D)
  (parm : Parameters F)

theorem mem_points_of_mem (pt : Point) (v : Vars P F) (w : W) (t : List (Event P F W))
    (h : Event.reach pt v w ∈ t) : pt ∈ points t :=
  List.mem_filterMap.2 ⟨_, h, rfl⟩

/-- A trace without kernel calls and returns satisfies the call-return and
stopping relations. -/
theorem quiet_of_points (t : List (Event P F W))
    (h : ∀ pt ∈ points t, pt.isKernelCall = false ∧ pt.isKernelReturn = false) :
    List.Chain' (Returns x N bp data parm) t
    ∧ List.Pairwise (StopsAt N) t
    ∧ (∀ pt v w, Event.reach pt v w ∈ t → pt.isKernelReturn = true → v.iter < N)
    ∧ (∀ e ∈ t.getLast?, ∀ e', Returns x N bp data parm e e') := by
  have hq : ∀ a ∈ t, ∀ b, Returns x N bp data parm a b := by
    intro a ha b
    refine returns_of_not_call x N bp data parm a b (fun v w heq => ?_) (fun i v w heq => ?_)
    · subst heq
      have := (h _ (mem_points_of_mem _ _ _ _ ha)).1
      cases this
    · subst heq
      have := (h _ (mem_points_of_mem _ _ _ _ ha)).1
      cases this
  refine ⟨chain'_of_forall_left _ t hq, pairwise_of_forall_left _ t ?_, ?_, ?_⟩
  · intro a ha b
    cases a with
    | reach p v w =>
      cases b with
      | reach q v' w' =>
        intro hp _
        rw [(h _ (mem_points_of_mem _ _ _ _ ha)).2] at hp
        cases hp
      | _ => trivial
    | _ => trivial
  · intro pt v w hmem hp
    rw [(h _ (mem_points_of_mem _ _ _ _ hmem)).2] at hp
    cases hp
  · intro e he e'
    exact hq e (List.mem_of_mem_getLast? he) e'

theorem kernelCalls_of_points_nil (t : List (Event P F W)) (h : points t = []) :
    kernelCalls t = [] := by
  simp [kernelCalls, h]

/-- The kernel calls of a run of `main` are an initial part of the repeating
pattern. -/
theorem main_calls [IntCast F] [Add F] (w : W) (chain0 : Chain P F) (argv : List String)
    (fuel : Nat) (r : Result P F W) (h : main x w chain0 argv fuel = some r) :
    ∃ k, kernelCalls r.trace <+: schedule (x.length (mainBp x w argv)) k := by
  rcases main_cases x w chain0 argv fuel r h with ⟨_, hr⟩ | ⟨_, hr, _⟩ | ⟨_, hr, _⟩ | ⟨_, _, _, hd⟩
  · exact ⟨0, by rw [hr]; exact List.prefix_refl _⟩
  · refine ⟨0, ?_⟩
    rw [hr, kernelCalls_of_points_nil _ (points_setupTrace x argv)]
    exact List.prefix_refl _
  · refine ⟨0, ?_⟩
    rw [hr, kernelCalls_of_points_nil _ (points_faultTrace x argv _)]
    exact List.prefix_refl _
  · unfold driverRun at hd
    cases hm : mainLoop x (mainN x argv) (mainBp x w argv) (mainData x w argv)
        (readParameters x argv) fuel
        (driverInit x (mainN x argv) (mainData x w argv) (readParameters x argv)
          (mainPath x w argv) (mainInitialisation x w argv).1 chain0 (setupTrace x argv)) with
    | none => rw [hm] at hd; simp at hd
    | some m' =>
      rw [hm] at hd
      simp only [Option.map_some', Option.some.injEq] at hd
      obtain ⟨k, hk⟩ := mainLoop_calls x (mainN x argv) (mainBp x w argv) (mainData x w argv)
        (readParameters x argv) fuel _ m' 0
        (by
          simp [kernelCalls, points_driverInit x _ _ _ _ _ _ _ (points_setupTrace x argv),
            Point.isKernelCall, schedule])
        hm
      refine ⟨k, ?_⟩
      rw [← hd]
      simp only [emit_trace, kernelCalls_append]
      simpa [kernelCalls, Point.isKernelCall] using hk

end ScheduleMain

/-- C10. Kernel schedule and path threading: the kernel calls of a run of
`main` are an initial part of the repeating pattern `jittering`,
`segmentSampler(0)`, ..., `segmentSampler(bp.length - 1)`; every `segmentSampler`
call is made with `iter < N` and with `path` equal to `chain[iter - 1].path`;
every kernel call is directly followed by its return, which for `segmentSampler`
has the returned entry stored at `chain[iter]` and `iter` one higher; no kernel
call comes after a kernel return that left `iter >= N`; and the run ends only
with `iter >= N`. -/
theorem main_kernel_schedule {P D B W F : Type} [IntCast F] [Add F]
    (x : Externals P D B W F) (w : W) (chain0 : Chain P F) (argv : List String) (fuel : Nat)
    (r : Result P F W) (h : main x w chain0 argv fuel = some r) :
    (∃ k, kernelCalls r.trace <+: schedule (x.length (mainBp x w argv)) k)
    ∧ (∀ i v w', Event.reach (Point.segmentSamplerCall i) v w' ∈ r.trace →
        v.iter < mainN x argv ∧ v.path = (v.chain (v.iter - 1)).path)
    ∧ List.Chain' (Returns x (mainN x argv) (mainBp x w argv) (mainData x w argv)
        (readParameters x argv)) r.trace
    ∧ List.Pairwise (StopsAt (mainN x argv)) r.trace
    ∧ (∀ vf, r.final = some vf → mainN x argv ≤ vf.iter) := by
  refine ⟨main_calls x w chain0 argv fuel r h, ?_, ?_⟩
  · have key : ∀ pt v w', Event.reach pt v w' ∈ r.trace →
        match pt with
        | Point.segmentSamplerCall _ =>
          v.iter < mainN x argv ∧ v.path = (v.chain (v.iter - 1)).path
        | _ => True := by
      refine main_points_invariant x w chain0 argv fuel r
        (fun pt v _ =>
          match pt with
          | Point.segmentSamplerCall _ =>
            v.iter < mainN x argv ∧ v.path = (v.chain (v.iter - 1)).path
          | _ => True)
        (fun m => m.vars.path = (m.vars.chain (m.vars.iter - 1)).path)
        (fun m => m.vars.path = (m.vars.chain (m.vars.iter - 1)).path)
        ?_ ?_ ?_ ?_ (fun m hm _ => hm) (fun _ _ _ => trivial) h
      · show _ = (_ : MCMCSummary P F).path
        rw [driverInit_iter, show (1 : Int) - 1 = 0 from rfl, driverInit_chain_zero]
        rfl
      · intro _ _ pt hpt
        rcases hpt with rfl | rfl <;> trivial
      · intro m _
        exact ⟨jitterStep_path x _ _ _ m, trivial, trivial⟩
      · intro i m hm hlt
        refine ⟨segmentStep_path x _ _ _ i m, ?_⟩
        refine segmentStep_holds x (mainBp x w argv) (mainData x w argv)
          (readParameters x argv) _ i m (fun pt v w' he => Or.inl he) (Or.inr ⟨hlt, hm⟩)
          (Or.inr trivial) ?_ (fun _ => Or.inr trivial) (Or.inr trivial)
        intro _ pt hpt
        rcases hpt with rfl | rfl | rfl <;> exact Or.inr trivial
    exact fun i v w' he => key _ v w' he
  · refine (main_driver_invariant x w chain0 argv fuel r
      (fun m => List.Chain' (Returns x (mainN x argv) (mainBp x w argv) (mainData x w argv)
            (readParameters x argv)) m.trace
        ∧ (∀ e ∈ m.trace.getLast?, ∀ e', Returns x (mainN x argv) (mainBp x w argv)
            (mainData x w argv) (readParameters x argv) e e')
        ∧ List.Pairwise (StopsAt (mainN x argv)) m.trace
        ∧ (∀ pt v w', Event.reach pt v w' ∈ m.trace → pt.isKernelReturn = true →
            v.iter < mainN x argv))
      (fun m => List.Chain' (Returns x (mainN x argv) (mainBp x w argv) (mainData x w argv)
            (readParameters x argv)) m.trace
        ∧ (∀ e ∈ m.trace.getLast?, ∀ e', Returns x (mainN x argv) (mainBp x w argv)
            (mainData x w argv) (readParameters x argv) e e')
        ∧ List.Pairwise (StopsAt (mainN x argv)) m.trace
        ∧ (m.vars.iter < mainN x argv → ∀ pt v w', Event.reach pt v w' ∈ m.trace →
            pt.isKernelReturn = true → v.iter < mainN x argv))
      ?_ ?_ ?_ (fun m hm hlt => ⟨hm.1, hm.2.1, hm.2.2.1, hm.2.2.2 hlt⟩) h).elim ?_ ?_
    · obtain ⟨q1, q2, q3, q4⟩ := quiet_of_points x (mainN x argv) (mainBp x w argv)
        (mainData x w argv) (readParameters x argv)
        (driverInit x (mainN x argv) (mainData x w argv) (readParameters x argv)
          (mainPath x w argv) (mainInitialisation x w argv).1 chain0 (setupTrace x argv)).trace
        (by
          rw [points_driverInit x _ _ _ _ _ _ _ (points_setupTrace x argv)]
          intro pt hpt
          simp only [List.mem_cons, List.mem_singleton, List.not_mem_nil, or_false] at hpt
          rcases hpt with rfl | rfl <;> exact ⟨rfl, rfl⟩)
      exact ⟨q1, q4, q2, q3⟩
    · intro m hm
      obtain ⟨c1, c2, c3, c4⟩ := hm
      obtain ⟨r1, r2⟩ := returns_jitterStep x (mainN x argv) (mainBp x w argv)
        (mainData x w argv) (readParameters x argv) m c1 c2
      obtain ⟨s1, s2⟩ := stopsAt_jitterStep x (mainN x argv) (mainData x w argv)
        (readParameters x argv) m c3 c4
      exact ⟨r1, r2, s1, s2⟩
    · intro i m hm hlt
      obtain ⟨c1, c2, c3, c4⟩ := hm
      obtain ⟨r1, r2⟩ := returns_segmentStep x (mainN x argv) (mainBp x w argv)
        (mainData x w argv) (readParameters x argv) i m c1 c2
      obtain ⟨s1, s2⟩ := stopsAt_segmentStep x (mainN x argv) (mainBp x w argv)
        (mainData x w argv) (readParameters x argv) i m c3 (c4 hlt)
      exact ⟨r1, r2, s1, s2⟩
    · rintro ⟨hfin, hno⟩
      obtain ⟨q1, q2, _, _⟩ := quiet_of_points x (mainN x argv) (mainBp x w argv)
        (mainData x w argv) (readParameters x argv) r.trace
        (by
          intro pt hpt
          obtain ⟨e, he, hpe⟩ := List.mem_filterMap.1 hpt
          cases e with
          | reach q v w' => exact absurd he (hno q v w')
          | _ => cases hpe)
      refine ⟨q1, q2, fun vf hvf => ?_⟩
      rw [hfin] at hvf; cases hvf
    · rintro ⟨m', ⟨c1, c2, c3, _⟩, hge, htr, hfin, _⟩
      rw [htr]
      refine ⟨List.chain'_append.2 ⟨c1, List.chain'_singleton _, fun a ha b _ => c2 a ha b⟩,
        List.pairwise_append.2 ⟨c3, List.pairwise_singleton _ _, fun a _ b hb => ?_⟩,
        fun vf hvf => ?_⟩
      · rw [List.mem_singleton] at hb
        subst hb
        cases a with
        | reach p v w' => exact fun _ hq => by cases hq
        | _ => trivial
      · rw [hfin] at hvf
        cases hvf
        exact hge

/-- The scenario run (`N = 10`, two segments): nine `segmentSampler` calls in
five sweeps, the last sweep cut after `segmentSampler(0)`. -/
theorem main_kernel_schedule_witness :
    ∃ r : Result Nat Int Nat, main (demo 2 99) 0 junk argv7 16 = some r
      ∧ kernelCalls r.trace ++ [Point.segmentSamplerCall 1] = schedule 2 5
      ∧ (∀ i v w', Event.reach (Point.segmentSamplerCall i) v w' ∈ r.trace →
          v.iter < 10 ∧ v.path = (v.chain (v.iter - 1)).path) := by
  have e : ((main (demo 2 99) 0 junk argv7 16).map fun r =>
      kernelCalls r.trace ++ [Point.segmentSamplerCall 1]) = some (schedule 2 5) := by decide
  cases hm : main (demo 2 99) 0 junk argv7 16 with
  | none => rw [hm] at e; simp at e
  | some r =>
    rw [hm] at e
    exact ⟨r, rfl, Option.some.inj e,
      (main_kernel_schedule (demo 2 99) 0 junk argv7 16 r hm).2.1⟩

end Arbores

namespace Arbores

section Entries

variable {P D B W F : Type} (x : Externals P D B W F) (N : Int) (bp : B) (data : D)
  (parm : Parameters F)

/-- The block after the body of the `for` loop: the returned entry stored at
`chain[iter]` (the old `iter`), then flagged. -/
theorem segmentStep_chain (i : Int) (m : Machine P F W) :
    (segmentStep x bp data parm i m).vars.chain
      = setFullScan (Function.update m.vars.chain m.vars.iter
          (x.segmentSampler m.world m.vars.path i bp data parm).2) m.vars.iter
          (if i = x.length bp - 1 then 1 else 0) := by
  have hk : m.vars.iter + 1 - 1 = m.vars.iter := by omega
  unfold segmentStep
  by_cases h : i = x.length bp - 1
  · simp only [h, if_true, emit_vars, sweepCompleted_vars, segmentRecord_vars, hk]
  · simp only [h, if_false, emit_vars, sweepOpen_vars, segmentRecord_vars, hk]

/-- The entry in the slot below `iter` after the body of the `for` loop: the
one `segmentSampler` returned, with the flag of the branch taken. -/
theorem segmentStep_entry (i : Int) (m : Machine P F W) :
    (segmentStep x bp data parm i m).vars.chain ((segmentStep x bp data parm i m).vars.iter - 1)
      = { (x.segmentSampler m.world m.vars.path i bp data parm).2 with
          full_scan := if i = x.length bp - 1 then 1 else 0 } := by
  have hk : m.vars.iter + 1 - 1 = m.vars.iter := by omega
  rw [segmentStep_chain, segmentStep_iter, hk]
  simp [setFullScan]

end Entries

end Arbores

namespace Arbores

end Arbores

namespace Arbores

section MidSweep

variable {P D B W F : Type} (x : Externals P D B W F) (N : Int) (bp : B) (data : D)
  (parm : Parameters F)

/-- The `for` loop when fewer slots are left than segments (`n` indices to go):
it makes fewer than `n` calls of `segmentSampler`, for consecutive indices. -/
theorem segmentLoop_short_calls :
    ∀ (n j : Nat) (m : Machine P F W), m.vars.iter < N → (N - m.vars.iter).toNat < n →
      ∃ c, c < n
        ∧ kernelCalls (segmentLoop x N bp data parm n (j : Int) m).trace
            = kernelCalls m.trace
              ++ (List.range' j c).map (fun k : Nat => Point.segmentSamplerCall (k : Int)) := by
  intro n
  induction n with
  | zero => intro j m _ h; exact absurd h (Nat.not_lt_zero _)
  | succ n ih =>
    intro j m hlt hn
    have hit := segmentStep_iter x bp data parm (j : Int) m
    unfold segmentLoop
    by_cases hge : (segmentStep x bp data parm (j : Int) m).vars.iter ≥ N
    · rw [if_pos hge]
      exact ⟨1, by omega, by rw [kernelCalls_segmentStep]; rfl⟩
    · rw [if_neg hge]
      obtain ⟨c, hc, hcalls⟩ := ih (j + 1) (segmentStep x bp data parm (j : Int) m)
        (lt_of_not_ge hge) (by omega)
      have hcast : ((j : Int) + 1) = ((j + 1 : Nat) : Int) := by push_cast; rfl
      rw [hcast]
      refine ⟨c + 1, by omega, ?_⟩
      rw [hcalls, kernelCalls_segmentStep, List.range'_succ, List.map_cons, List.append_assoc]
      rfl

/-- The kernel calls of the `while (true)` loop when `N` is smaller than the
number of segments: `jittering` once, then `segmentSampler` for indices that
stay below the last one. -/
theorem mainLoop_short_calls (hNL : N < x.length bp)
    (hj : ∀ (w : W) (c : Chain P F) (it : Int), it ≤ (x.jittering w c it N parm data).2.2)
    (fuel : Nat) (m m' : Machine P F W) (h1 : 1 ≤ m.vars.iter)
    (h : mainLoop x N bp data parm (fuel + 1) m = some m') :
    ∃ c : Nat, kernelCalls m'.trace
        = kernelCalls m.trace ++ Point.jitteringCall ::
            (List.range' 0 c).map (fun k : Nat => Point.segmentSamplerCall (k : Int))
      ∧ ∀ j : Nat, j < c → (j : Int) < x.length bp - 1 := by
  have hj1 := hj m.world m.vars.chain m.vars.iter
  rw [← jitterStep_iter x N data parm m] at hj1
  unfold mainLoop at h
  by_cases hge : (jitterStep x N data parm m).vars.iter ≥ N
  · rw [if_pos hge] at h
    cases h
    exact ⟨0, by rw [kernelCalls_jitterStep]; rfl, fun j hj0 => absurd hj0 (Nat.not_lt_zero _)⟩
  · rw [if_neg hge] at h
    obtain ⟨s1, _, _⟩ := segmentLoop_short x N bp data parm (x.length bp).toNat 0
      (jitterStep x N data parm m) (lt_of_not_ge hge) (by omega) (by omega)
    obtain ⟨c, hc, hcalls⟩ := segmentLoop_short_calls x N bp data parm (x.length bp).toNat 0
      (jitterStep x N data parm m) (lt_of_not_ge hge) (by omega)
    simp only [Nat.cast_zero] at hcalls
    rw [if_pos (by rw [s1])] at h
    cases h
    refine ⟨c, ?_, fun j hjc => by omega⟩
    rw [hcalls, kernelCalls_jitterStep, List.append_assoc]
    rfl

/-- Every entry flagged at the end of the body of the `for` loop is the entry
the `segmentSampler` call of that body returned, with the flag of its branch;
the call stands before the flagging in the trace.  This is kept by the steps of
the loop. -/
theorem flagged_segmentStep (i : Int) (m : Machine P F W)
    (h : ∀ j v w', Event.reach (Point.segmentFlagged j) v w' ∈ m.trace →
      ∃ v0 w0, List.Sublist [Event.reach (Point.segmentSamplerCall j) v0 w0,
          Event.reach (Point.segmentFlagged j) v w'] m.trace
        ∧ v.iter = v0.iter + 1
        ∧ v.chain (v.iter - 1) = { (x.segmentSampler w0 v0.path j bp data parm).2 with
            full_scan := if j = x.length bp - 1 then 1 else 0 }) :
    ∀ j v w', Event.reach (Point.segmentFlagged j) v w'
        ∈ (segmentStep x bp data parm i m).trace →
      ∃ v0 w0, List.Sublist [Event.reach (Point.segmentSamplerCall j) v0 w0,
          Event.reach (Point.segmentFlagged j) v w'] (segmentStep x bp data parm i m).trace
        ∧ v.iter = v0.iter + 1
        ∧ v.chain (v.iter - 1) = { (x.segmentSampler w0 v0.path j bp data parm).2 with
            full_scan := if j = x.length bp - 1 then 1 else 0 } := by
  have hnew : ∃ v0 w0, List.Sublist [Event.reach (Point.segmentSamplerCall i) v0 w0,
        Event.reach (Point.segmentFlagged i) (segmentStep x bp data parm i m).vars
          (segmentStep x bp data parm i m).world] (segmentStep x bp data parm i m).trace
      ∧ (segmentStep x bp data parm i m).vars.iter = v0.iter + 1
      ∧ (segmentStep x bp data parm i m).vars.chain
          ((segmentStep x bp data parm i m).vars.iter - 1)
        = { (x.segmentSampler w0 v0.path i bp data parm).2 with
            full_scan := if i = x.length bp - 1 then 1 else 0 } := by
    refine ⟨m.vars, m.world, ?_, segmentStep_iter x bp data parm i m,
      segmentStep_entry x bp data parm i m⟩
    by_cases hi : i = x.length bp - 1
    · rw [segmentStep_trace_last x bp data parm i m hi]
      refine List.Sublist.trans ?_ (List.sublist_append_right _ _)
      simp
    · rw [segmentStep_trace_inner x bp data parm i m hi]
      refine List.Sublist.trans ?_ (List.sublist_append_right _ _)
      simp
  have hold : ∀ j v w', Event.reach (Point.segmentFlagged j) v w' ∈ m.trace →
      ∃ v0 w0, List.Sublist [Event.reach (Point.segmentSamplerCall j) v0 w0,
          Event.reach (Point.segmentFlagged j) v w'] (segmentStep x bp data parm i m).trace
        ∧ v.iter = v0.iter + 1
        ∧ v.chain (v.iter - 1) = { (x.segmentSampler w0 v0.path j bp data parm).2 with
            full_scan := if j = x.length bp - 1 then 1 else 0 } := by
    intro j v w' he
    obtain ⟨v0, w0, hsub, h2, h3⟩ := h j v w' he
    exact ⟨v0, w0, hsub.trans (segmentStep_extends x bp data parm i m).sublist, h2, h3⟩
  intro j v w' he
  have key := segmentStep_holds x bp data parm
    (fun pt v w' => ∀ j, pt = Point.segmentFlagged j →
      ∃ v0 w0, List.Sublist [Event.reach (Point.segmentSamplerCall j) v0 w0,
          Event.reach (Point.segmentFlagged j) v w'] (segmentStep x bp data parm i m).trace
        ∧ v.iter = v0.iter + 1
        ∧ v.chain (v.iter - 1) = { (x.segmentSampler w0 v0.path j bp data parm).2 with
            full_scan := if j = x.length bp - 1 then 1 else 0 })
    i m (fun pt v w' he j hj => by subst hj; exact hold j v w' he)
    (fun j hj => Point.noConfusion hj) (fun j hj => Point.noConfusion hj)
    (fun _ pt hpt j hj => by
      subst hj
      rcases hpt with h0 | h0 | h0 <;> exact Point.noConfusion h0)
    (fun _ j hj => Point.noConfusion hj)
    (fun j hj => by
      cases hj
      exact hnew)
  exact key _ v w' he j rfl

end MidSweep

end Arbores

namespace Arbores

/-- C3. Full-scan flag correctness.  In every run of `main` the initial entry
has `full_scan = 0`; and whenever the end of the loop body for segment index
`i` is reached, the slot `chain[iter - 1]` holds the entry returned by the
`segmentSampler` call of that body (made earlier in the run with index `i`, one
`iter` lower), with `full_scan` set to 1 if `i = bp.length - 1` and to 0
otherwise: the flag is 1 if and only if the entry comes from the call with
index `bp.length - 1`.  When moreover `N` is a `long` for which `malloc`
returns a block, `N` is smaller
than the segment count and the jitter kernel only appends entries with
`full_scan = 0` (it returns at least the `iter` it is given and leaves the
entries below it alone), one round of the loop ends the run mid-sweep:
`jittering` is called once, `segmentSampler` only for indices below
`bp.length - 1`, no sweep is counted, `iter >= N` at the end, and the last
recorded entry `chain[iter - 1]` has `full_scan = 0`. -/
theorem main_full_scan_flag {P D B W F : Type} [IntCast F] [Add F] (x : Externals P D B W F)
    (w : W) (chain0 : Chain P F) (argv : List String) :
    (∀ (fuel : Nat) (r : Result P F W), main x w chain0 argv fuel = some r →
      (∀ v w', Event.reach Point.initialRecorded v w' ∈ r.trace → (v.chain 0).full_scan = 0)
      ∧ (∀ i v w', Event.reach (Point.segmentFlagged i) v w' ∈ r.trace →
          (∃ v0 w0, List.Sublist [Event.reach (Point.segmentSamplerCall i) v0 w0,
                Event.reach (Point.segmentFlagged i) v w'] r.trace
              ∧ v.iter = v0.iter + 1
              ∧ v.chain (v.iter - 1)
                  = { (x.segmentSampler w0 v0.path i (mainBp x w argv) (mainData x w argv)
                        (readParameters x argv)).2 with
                      full_scan := if i = x.length (mainBp x w argv) - 1 then 1 else 0 })
          ∧ ((v.chain (v.iter - 1)).full_scan = 1 ↔ i = x.length (mainBp x w argv) - 1)
          ∧ (i ≠ x.length (mainBp x w argv) - 1 → (v.chain (v.iter - 1)).full_scan = 0)))
    ∧ (6 ≤ argv.length →
        x.checkTreePathCompletely (mainPath x w argv) = 1 →
        x.checkCompatibility (mainPath x w argv) (mainData x w argv) = 1 →
        (-(2 ^ 63) ≤ mainN x argv ∧ mainN x argv < 2 ^ 63) →
        x.malloc (allocSize x (mainN x argv)) = true →
        mainN x argv < x.length (mainBp x w argv) →
        (∀ (w' : W) (c : Chain P F) (it : Int),
          it ≤ (x.jittering w' c it (mainN x argv) (readParameters x argv)
                  (mainData x w argv)).2.2
          ∧ (∀ k, k < it → (x.jittering w' c it (mainN x argv) (readParameters x argv)
                  (mainData x w argv)).2.1 k = c k)
          ∧ (∀ k, it ≤ k → k < (x.jittering w' c it (mainN x argv) (readParameters x argv)
                  (mainData x w argv)).2.2 →
              ((x.jittering w' c it (mainN x argv) (readParameters x argv)
                  (mainData x w argv)).2.1 k).full_scan = 0)) →
        ∀ fuel : Nat, 1 ≤ fuel →
          ∃ (r : Result P F W) (vf : Vars P F) (c : Nat),
            main x w chain0 argv fuel = some r ∧ r.exit = Exit.returned 0
            ∧ r.final = some vf ∧ mainN x argv ≤ vf.iter ∧ vf.full_scan_count = 0
            ∧ (vf.chain (vf.iter - 1)).full_scan = 0
            ∧ kernelCalls r.trace = Point.jitteringCall ::
                (List.range' 0 c).map (fun k : Nat => Point.segmentSamplerCall (k : Int))
            ∧ ∀ j : Nat, j < c → (j : Int) < x.length (mainBp x w argv) - 1) := by
  constructor
  · intro fuel r h
    have key : ∀ pt v w', Event.reach pt v w' ∈ r.trace →
        match pt with
        | Point.initialRecorded => (v.chain 0).full_scan = 0
        | _ => True := by
      refine main_points_invariant x w chain0 argv fuel r
        (fun pt v _ =>
          match pt with
          | Point.initialRecorded => (v.chain 0).full_scan = 0
          | _ => True)
        (fun _ => True) (fun _ => True) trivial ?_ ?_ ?_ (fun _ _ _ => trivial)
        (fun _ _ _ => trivial) h
      · intro _ _ pt hpt
        rcases hpt with rfl | rfl
        · show (_ : MCMCSummary P F).full_scan = 0
          rw [driverInit_chain_zero]; rfl
        · trivial
      · intro m _
        exact ⟨trivial, trivial, trivial⟩
      · intro i m _ _
        refine ⟨trivial, ?_⟩
        refine segmentStep_holds x (mainBp x w argv) (mainData x w argv) (readParameters x argv)
          _ i m (fun pt v w' he => Or.inl he) (Or.inr trivial) (Or.inr trivial) ?_
          (fun _ => Or.inr trivial) (Or.inr trivial)
        intro _ pt hpt
        rcases hpt with rfl | rfl | rfl <;> exact Or.inr trivial
    have hflag : ∀ i v w', Event.reach (Point.segmentFlagged i) v w' ∈ r.trace →
        ∃ v0 w0, List.Sublist [Event.reach (Point.segmentSamplerCall i) v0 w0,
              Event.reach (Point.segmentFlagged i) v w'] r.trace
            ∧ v.iter = v0.iter + 1
            ∧ v.chain (v.iter - 1)
                = { (x.segmentSampler w0 v0.path i (mainBp x w argv) (mainData x w argv)
                      (readParameters x argv)).2 with
                    full_scan := if i = x.length (mainBp x w argv) - 1 then 1 else 0 } := by
      refine (main_driver_invariant x w chain0 argv fuel r
        (fun m => ∀ j v w', Event.reach (Point.segmentFlagged j) v w' ∈ m.trace →
          ∃ v0 w0, List.Sublist [Event.reach (Point.segmentSamplerCall j) v0 w0,
                Event.reach (Point.segmentFlagged j) v w'] m.trace
              ∧ v.iter = v0.iter + 1
              ∧ v.chain (v.iter - 1)
                  = { (x.segmentSampler w0 v0.path j (mainBp x w argv) (mainData x w argv)
                        (readParameters x argv)).2 with
                      full_scan := if j = x.length (mainBp x w argv) - 1 then 1 else 0 })
        (fun m => ∀ j v w', Event.reach (Point.segmentFlagged j) v w' ∈ m.trace →
          ∃ v0 w0, List.Sublist [Event.reach (Point.segmentSamplerCall j) v0 w0,
                Event.reach (Point.segmentFlagged j) v w'] m.trace
              ∧ v.iter = v0.iter + 1
              ∧ v.chain (v.iter - 1)
                  = { (x.segmentSampler w0 v0.path j (mainBp x w argv) (mainData x w argv)
                        (readParameters x argv)).2 with
                      full_scan := if j = x.length (mainBp x w argv) - 1 then 1 else 0 })
        ?_ ?_ ?_ (fun m hm _ => hm) h).elim ?_ ?_
      · intro j v w' he
        have hp := mem_points_of_mem _ _ _ _ he
        rw [points_driverInit x _ _ _ _ _ _ _ (points_setupTrace x argv)] at hp
        simp at hp
      · intro m hm j v w' he
        rw [jitterStep_trace] at he
        rcases List.mem_append.1 he with h0 | h0
        · obtain ⟨v0, w0, hsub, h2, h3⟩ := hm j v w' h0
          exact ⟨v0, w0, hsub.trans (jitterStep_extends x _ _ _ m).sublist, h2, h3⟩
        · simp at h0
      · intro i m hm _
        exact flagged_segmentStep x (mainBp x w argv) (mainData x w argv)
          (readParameters x argv) i m hm
      · rintro ⟨_, hno⟩ i v w' he
        exact absurd he (hno _ v w')
      · rintro ⟨m', hinv, _, htr, _, _⟩ i v w' he
        rw [htr] at he
        rcases List.mem_append.1 he with h0 | h0
        · obtain ⟨v0, w0, hsub, h2, h3⟩ := hinv i v w' h0
          refine ⟨v0, w0, ?_, h2, h3⟩
          rw [htr]
          exact hsub.trans (List.sublist_append_left _ _)
        · simp at h0
    refine ⟨fun v w' he => key _ v w' he, fun i v w' he => ?_⟩
    obtain ⟨v0, w0, hsub, h2, h3⟩ := hflag i v w' he
    have hk : (v.chain (v.iter - 1)).full_scan
        = if i = x.length (mainBp x w argv) - 1 then 1 else 0 := by rw [h3]
    refine ⟨⟨v0, w0, hsub, h2, h3⟩, ?_⟩
    by_cases hi : i = x.length (mainBp x w argv) - 1
    · rw [if_pos hi] at hk
      exact ⟨⟨fun _ => hi, fun _ => hk⟩, fun hne => absurd hi hne⟩
    · rw [if_neg hi] at hk
      exact ⟨⟨fun h1 => by rw [hk] at h1; exact absurd h1 (by decide), fun h1 => absurd h1 hi⟩,
        fun _ => hk⟩
  · intro hargc hc1 hc2 _ hmalloc hNL hj fuel hfuel
    obtain ⟨f, rfl⟩ : ∃ f, fuel = f + 1 := ⟨fuel - 1, by omega⟩
    rw [main_eq_driver x w chain0 argv (f + 1) hargc hc1 hc2 hmalloc]
    obtain ⟨m', hm', hge, hflag, hfs⟩ := mainLoop_short x (mainN x argv) (mainBp x w argv)
      (mainData x w argv) (readParameters x argv) hNL hj f
      (driverInit x (mainN x argv) (mainData x w argv) (readParameters x argv)
        (mainPath x w argv) (mainInitialisation x w argv).1 chain0 (setupTrace x argv))
      (by rw [driverInit_iter])
      (by rw [driverInit_iter]; show (_ : MCMCSummary P F).full_scan = 0
          rw [show (1 : Int) - 1 = 0 from rfl, driverInit_chain_zero]; rfl)
    obtain ⟨c, hcalls, hc⟩ := mainLoop_short_calls x (mainN x argv) (mainBp x w argv)
      (mainData x w argv) (readParameters x argv) hNL (fun w' c it => (hj w' c it).1) f _ m'
      (by rw [driverInit_iter]) hm'
    refine ⟨{ exit := Exit.returned 0, trace := (m'.emit Point.deallocateChain).trace,
              final := some m'.vars }, m'.vars, c, ?_, rfl, rfl, hge, hfs, hflag, ?_, hc⟩
    · unfold driverRun
      rw [hm']
      rfl
    · have h0 : kernelCalls (driverInit x (mainN x argv) (mainData x w argv)
          (readParameters x argv) (mainPath x w argv) (mainInitialisation x w argv).1 chain0
          (setupTrace x argv)).trace = [] := by
        simp [kernelCalls, points_driverInit x _ _ _ _ _ _ _ (points_setupTrace x argv),
          Point.isKernelCall]
      simp only [emit_trace, kernelCalls_append]
      rw [hcalls, h0]
      simp [kernelCalls, Point.isKernelCall]

end Arbores

namespace Arbores

/-- Two runs.  With `N = 3` and five segments the run ends mid-sweep after
`jittering` and `segmentSampler(0)`, `segmentSampler(1)`; with `N = 10` and two
segments the entries from `segmentSampler(1)` are flagged 1 (four of them) and
those from `segmentSampler(0)` are flagged 0 (five of them). -/
theorem main_full_scan_flag_witness :
    (∃ (r : Result Nat Int Nat) (vf : Vars Nat Int) (c : Nat),
      main (demo 5 99) 0 junk argvThree 1 = some r ∧ r.exit = Exit.returned 0
        ∧ r.final = some vf ∧ 3 ≤ vf.iter ∧ vf.full_scan_count = 0
        ∧ (vf.chain (vf.iter - 1)).full_scan = 0
        ∧ kernelCalls r.trace = Point.jitteringCall ::
            (List.range' 0 c).map (fun k : Nat => Point.segmentSamplerCall (k : Int))
        ∧ ∀ j : Nat, j < c → (j : Int) < 5 - 1)
    ∧ (∃ r : Result Nat Int Nat, main (demo 2 99) 0 junk argv7 16 = some r
        ∧ (varsAt (Point.segmentFlagged 1) r.trace).map
            (fun v => (v.chain (v.iter - 1)).full_scan) = [1, 1, 1, 1]
        ∧ (varsAt (Point.segmentFlagged 0) r.trace).map
            (fun v => (v.chain (v.iter - 1)).full_scan) = [0, 0, 0, 0, 0]
        ∧ ∀ i v w', Event.reach (Point.segmentFlagged i) v w' ∈ r.trace →
            ((v.chain (v.iter - 1)).full_scan = 1 ↔ i = 1)) := by
  constructor
  · exact (main_full_scan_flag (demo 5 99) 0 junk argvThree).2 (by decide) (by decide)
      (by decide) (by decide) (by decide) (by decide) (fun _ _ it => ⟨le_refl it,
        fun _ _ => rfl,
        fun k h1 h2 => by
          have h3 : k < it := h2
          omega⟩) 1 (le_refl 1)
  · have e : ((main (demo 2 99) 0 junk argv7 16).map fun r =>
        ((varsAt (Point.segmentFlagged 1) r.trace).map
            (fun v => (v.chain (v.iter - 1)).full_scan),
         (varsAt (Point.segmentFlagged 0) r.trace).map
            (fun v => (v.chain (v.iter - 1)).full_scan)))
        = some ([1, 1, 1, 1], [0, 0, 0, 0, 0]) := by decide
    cases hm : main (demo 2 99) 0 junk argv7 16 with
    | none => rw [hm] at e; simp at e
    | some r =>
      rw [hm] at e
      simp only [Option.map_some', Option.some.injEq, Prod.mk.injEq] at e
      exact ⟨r, rfl, e.1, e.2, fun i v w' he =>
        (((main_full_scan_flag (demo 2 99) 0 junk argv7).1 16 r hm).2 i v w' he).2.1⟩

end Arbores
